import Mathlib

/-!
Store utilities of the STUNner gateway operator.

A shallow embedding of `internal/store/utils.go` and `internal/store/staticservice.go`.

Conventions of the embedding:

* a Go `string` is a Lean `String`;
* a Go `map[string]string` is `GoMap`: `none` is the nil map, `some kvs` a non-nil map given by
  its entries, read by first match on the key;
* a Go slice is `Slice α`: `none` is the nil slice, `some xs` a non-nil slice;
* a Go pointer to a struct is the struct value; an interface value that may be nil is an `Option`;
* a Go function that may panic returns `Except String α`, the error being the panic value;
* a Go function returning `(T, error)` returns `T × Option String`.
-/

set_option autoImplicit false

namespace StunnerGateway

/-! ## Go maps and slices -/

/-- Go `map[string]string`: `none` is the nil map. -/
abbrev GoMap := Option (List (String × String))

/-- Go slice: `none` is the nil slice. -/
abbrev Slice (α : Type) := Option (List α)

/-- Entries of a map, none for the nil map. -/
def GoMap.entries (m : GoMap) : List (String × String) :=
  match m with
  | none => []
  | some kvs => kvs

/-- Map read `v, ok := m[k]`: `none` when `ok` is false. Reading the nil map is allowed. -/
def GoMap.lookup (m : GoMap) (k : String) : Option String :=
  (m.entries.find? (fun kv => kv.1 == k)).map Prod.snd

/-- Builtin `delete(m, k)`: a no-op on the nil map and on a missing key. -/
def GoMap.delete (m : GoMap) (k : String) : GoMap :=
  m.map (fun kvs => kvs.filter (fun kv => !(kv.1 == k)))

/-- Map write `m[k] = v` for a key that is present: the value is replaced in place. -/
def GoMap.replace (m : GoMap) (k v : String) : GoMap :=
  m.map (fun kvs => kvs.map (fun kv => if kv.1 == k then (kv.1, v) else kv))

/-- Elements of a slice, none for the nil slice. -/
def Slice.elems {α : Type} (s : Slice α) : List α :=
  match s with
  | none => []
  | some xs => xs

/-- Builtin `append(s, x)`: the result is never nil. -/
def Slice.append {α : Type} (s : Slice α) (x : α) : Slice α :=
  some (Slice.elems s ++ [x])

/-! ## Kubernetes objects -/

/-- The `metav1.OwnerReference` fields read by the store. -/
structure OwnerReference where
  Kind : String
  Name : String
  UID : String
  deriving DecidableEq, Repr

/-- The `metav1.ObjectMeta` fields read or written by the store. -/
structure ObjectMeta where
  Namespace : String
  Name : String
  UID : String
  Generation : Int
  Labels : GoMap
  Annotations : GoMap
  OwnerReferences : List OwnerReference
  ManagedFields : Slice String
  deriving DecidableEq, Repr

/-- Source `types.NamespacedName`. -/
structure NamespacedName where
  Namespace : String
  Name : String
  deriving DecidableEq, Repr

/-- Source `stnrgwv1.StaticService`; the spec is carried as an uninterpreted payload. -/
structure StaticService where
  meta : ObjectMeta
  Spec : String
  deriving DecidableEq, Repr

/-- Source `corev1.ConfigMap`. -/
structure ConfigMap where
  meta : ObjectMeta
  Data : GoMap
  BinaryData : String
  deriving DecidableEq, Repr

/-- An object of a kind whose payload the store never inspects. -/
structure Resource where
  meta : ObjectMeta
  payload : String
  deriving DecidableEq, Repr

/-- Dynamic types of the objects other than `*StaticService` and `*ConfigMap`. -/
inductive GoType where
  | GatewayClass
  | Gateway
  | UDPRoute
  | UDPRouteV1A2
  | Service
  | Deployment
  | GatewayConfig
  | Dataplane
  | Other (typeName : String)
  deriving DecidableEq, Repr

/-- A non-nil `client.Object`: a value together with its dynamic type. -/
inductive Object where
  | StaticService (o : StunnerGateway.StaticService)
  | ConfigMap (o : StunnerGateway.ConfigMap)
  | Generic (t : GoType) (o : Resource)
  deriving DecidableEq, Repr

/-- Metadata of an object. -/
def Object.meta : Object → ObjectMeta
  | .StaticService o => o.meta
  | .ConfigMap o => o.meta
  | .Generic _ o => o.meta

/-- The object with its metadata replaced, dynamic type and payload kept. -/
def Object.setMeta : Object → ObjectMeta → Object
  | .StaticService o, m => .StaticService { o with meta := m }
  | .ConfigMap o, m => .ConfigMap { o with meta := m }
  | .Generic t o, m => .Generic t { o with meta := m }

/-- Whether the dynamic type of an object is `*StaticService`. -/
def Object.isStaticService : Object → Bool
  | .StaticService _ => true
  | _ => false

def Object.GetNamespace (o : Object) : String := o.meta.Namespace

def Object.GetName (o : Object) : String := o.meta.Name

def Object.GetGeneration (o : Object) : Int := o.meta.Generation

def Object.GetAnnotations (o : Object) : GoMap := o.meta.Annotations

def Object.SetAnnotations (o : Object) (as : GoMap) : Object :=
  o.setMeta { o.meta with Annotations := as }

def Object.SetManagedFields (o : Object) (mf : Slice String) : Object :=
  o.setMeta { o.meta with ManagedFields := mf }

/-! ## The generic store interface -/

/-- The read side of the `Store` interface embedded in `StaticServiceStore`: the result of
`Objects()` and the lookup function `Get`. The implementation lives outside these sources. -/
structure Store where
  Objects : List Object
  Get : NamespacedName → Option Object

/-- Source `StaticServiceStore`: a struct embedding a `Store`. -/
structure StaticServiceStore where
  Store : StunnerGateway.Store

/-- The panic value of both typed reads. -/
def invalidObjectPanic : String :=
  "access to an invalid object in the global StaticServiceStore"

/-- The loop of `GetAll`: assert each object, append it to `ret`. -/
def StaticServiceStore.GetAll.loop :
    List Object → Slice StaticService → Except String (Slice StaticService)
  | [], ret => .ok ret
  | .StaticService r :: rest, ret => StaticServiceStore.GetAll.loop rest (Slice.append ret r)
  | _ :: _, _ => .error invalidObjectPanic

/-- Source `StaticServiceStore.GetAll` (staticservice.go:22). -/
def StaticServiceStore.GetAll (s : StaticServiceStore) : Except String (Slice StaticService) :=
  StaticServiceStore.GetAll.loop s.Store.Objects (some [])

/-- Source `StaticServiceStore.GetObject` (staticservice.go:40). -/
def StaticServiceStore.GetObject (s : StaticServiceStore) (nsName : NamespacedName) :
    Except String (Option StaticService) :=
  match s.Store.Get nsName with
  | none => .ok none
  | some (.StaticService r) => .ok (some r)
  | some _ => .error invalidObjectPanic

/-! ## Change detection -/

/-- Source `compareObjects` (utils.go:43). -/
def compareObjects (o1 o2 : Object) : Bool :=
  o1.GetNamespace == o2.GetNamespace &&
    o1.GetName == o2.GetName &&
    o1.GetGeneration == o2.GetGeneration

/-! ## Backend references -/

/-- Source `stnrgwv1.BackendRef`: group, kind and namespace are pointers, nil when unset. -/
structure BackendRef where
  Group : Option String
  Kind : Option String
  Namespace : Option String
  Name : String
  deriving DecidableEq, Repr

/-- Source `corev1.GroupName`, the name of the core API group. -/
def corev1GroupName : String := ""

/-- Modelled from the spec: `stnrgwv1.GroupVersion.Group`, declared in the operator's
`api/v1` group-version file, which is not among the sources; the spec gives the
StaticService group as "stunner.l7mp.io". -/
def GroupVersionGroup : String := "stunner.l7mp.io"

/-- The test `p != nil && *p != v` on a string pointer. -/
def setAndDiffers (p : Option String) (v : String) : Bool :=
  match p with
  | none => false
  | some x => x != v

/-- The test `p == nil || *p != v` on a string pointer. -/
def nilOrDiffers (p : Option String) (v : String) : Bool :=
  match p with
  | none => true
  | some x => x != v

/-- Source `IsReferenceService` (utils.go:233). -/
def IsReferenceService (ref : BackendRef) : Bool :=
  if setAndDiffers ref.Group corev1GroupName then false
  else if setAndDiffers ref.Kind "Service" then false
  else true

/-- Source `IsReferenceStaticService` (utils.go:248). -/
def IsReferenceStaticService (ref : BackendRef) : Bool :=
  if nilOrDiffers ref.Group GroupVersionGroup then false
  else if nilOrDiffers ref.Kind "StaticService" then false
  else true

/-! ## Identity codec -/

/-- Source `types.NamespacedName.String`: namespace, the separator `/`, name. -/
def NamespacedName.String (n : NamespacedName) : String :=
  n.Namespace ++ "/" ++ n.Name

/-- Source `GetObjectKey` (utils.go:23). -/
def GetObjectKey (object : Object) : String :=
  NamespacedName.String { Namespace := object.GetNamespace, Name := object.GetName }

/-- Source `GetNamespacedName` (utils.go:28). -/
def GetNamespacedName (object : Object) : NamespacedName :=
  { Namespace := object.GetNamespace, Name := object.GetName }

/-- Cut a character sequence at the first occurrence of `sep`: the part before it and the part
after it, or `none` when `sep` does not occur. -/
def cutFirst (sep : Char) : List Char → Option (List Char × List Char)
  | [] => none
  | c :: cs =>
    if c = sep then some ([], cs)
    else
      match cutFirst sep cs with
      | none => none
      | some (before, after) => some (c :: before, after)

/-- The call `strings.SplitN(s, sep, 2)` for a one-character separator: `[s]` when the separator
does not occur, otherwise the text before its first occurrence and the unsplit remainder. -/
def stringsSplitN2 (s : String) (sep : Char) : List String :=
  match cutFirst sep s.data with
  | none => [s]
  | some (before, after) => [String.mk before, String.mk after]

/-- Panic value of an out-of-range index expression. -/
def indexOutOfRange (i len : Nat) : String :=
  "runtime error: index out of range [" ++ toString i ++ "] with length " ++ toString len

/-- Index expression `xs[i]` on a slice of strings. -/
def indexString (xs : List String) (i : Nat) : Except String String :=
  match xs[i]? with
  | some x => .ok x
  | none => .error (indexOutOfRange i xs.length)

/-- Source `GetNameFromKey` (utils.go:33). -/
def GetNameFromKey (key : String) : Except String NamespacedName := do
  let ns := stringsSplitN2 key '/'
  let namespace0 ← indexString ns 0
  let name1 ← indexString ns 1
  pure { Namespace := namespace0, Name := name1 }

/-! ## Configuration documents -/

/-- Source `stnrconfv1.ListenerConfig`: certificate and key, the remaining fields uninterpreted. -/
structure ListenerConfig where
  Cert : String
  Key : String
  rest : String
  deriving DecidableEq, Repr

/-- Source `stnrconfv1.AuthConfig`: the credential map, the remaining fields uninterpreted. -/
structure AuthConfig where
  Credentials : GoMap
  rest : String
  deriving DecidableEq, Repr

/-- Source `stnrconfv1.StunnerConfig`: the parts named by the store, the remaining fields
uninterpreted. -/
structure StunnerConfig where
  Auth : AuthConfig
  Listeners : Slice ListenerConfig
  rest : String
  deriving DecidableEq, Repr

/-- The zero value `stnrconfv1.StunnerConfig{}`. -/
def StunnerConfig.zero : StunnerConfig :=
  { Auth := { Credentials := none, rest := "" }, Listeners := none, rest := "" }

/-- What the store takes from outside these sources: the operator constant
`opdefault.DefaultStunnerdConfigfileName`, and `encoding/json` at type `StunnerConfig`.
`Unmarshal doc conf` decodes `doc` into `conf` and returns the updated value with the error;
`Marshal conf` returns the encoded bytes with the error. -/
structure Env where
  DefaultStunnerdConfigfileName : String
  Unmarshal : String → StunnerConfig → StunnerConfig × Option String
  Marshal : StunnerConfig → String × Option String

/-- Source `UnpackConfigMap` (utils.go:50). -/
def UnpackConfigMap (env : Env) (cm : ConfigMap) : StunnerConfig × Option String :=
  let conf := StunnerConfig.zero
  match cm.Data.lookup env.DefaultStunnerdConfigfileName with
  | none =>
    (conf, some ("Error unpacking configmap data: " ++ env.DefaultStunnerdConfigfileName ++
      " not found"))
  | some jsonConf =>
    match env.Unmarshal jsonConf conf with
    | (conf, some err) => (conf, some err)
    | (conf, none) => (conf, none)

/-! ## Redaction -/

/-- The annotation removed before dumping. -/
def lastAppliedKey : String := "kubectl.kubernetes.io/last-applied-configuration"

/-- The sentinel written over secrets. -/
def secretSentinel : String := "-SECRET-"

/-- Source `strip` (utils.go:184). -/
def strip (o : Object) : Object :=
  let as := o.GetAnnotations
  let o :=
    if (as.lookup lastAppliedKey).isSome then
      o.SetAnnotations (as.delete lastAppliedKey)
    else o
  o.SetManagedFields (some [])

/-- One guarded credential overwrite of `stripCM`:
`if _, ok := creds[k]; ok { creds[k] = "-SECRET-" }`. -/
def redactCredential (creds : GoMap) (k : String) : GoMap :=
  if (creds.lookup k).isSome then creds.replace k secretSentinel else creds

/-- Body of the listener loop of `stripCM`. -/
def redactListener (l : ListenerConfig) : ListenerConfig :=
  let l := if l.Cert ≠ "" then { l with Cert := secretSentinel } else l
  let l := if l.Key ≠ "" then { l with Key := secretSentinel } else l
  l

/-- The in-place edits `stripCM` makes to the decoded configuration (utils.go:201-218). -/
def redactConfig (conf : StunnerConfig) : StunnerConfig :=
  let creds := redactCredential conf.Auth.Credentials "username"
  let creds := redactCredential creds "password"
  let creds := redactCredential creds "secret"
  { conf with
    Auth := { conf.Auth with Credentials := creds }
    Listeners := conf.Listeners.map (fun ls => ls.map redactListener) }

/-- Source `stripCM` (utils.go:194). -/
def stripCM (env : Env) (cm : ConfigMap) : ConfigMap :=
  match UnpackConfigMap env cm with
  | (_, some _) => cm
  | (conf, none) =>
    match env.Marshal (redactConfig conf) with
    | (_, some _) => cm
    | (sc, none) => { cm with Data := some [(env.DefaultStunnerdConfigfileName, sc)] }

/-! ## Dumping -/

/-- What `DumpObject` takes from outside these sources, next to `Env`: the default dump
`fmt.Sprintf("%#v", o)` and `json.Marshal` at an object. -/
structure DumpEnv where
  env : Env
  GoSyntax : Object → String
  MarshalObject : Object → String × Option String

/-- The line `DumpObject` prints when serialization fails. -/
def errorLine (err : String) : String :=
  "---------------ERROR-----------: " ++ err ++ "\n"

/-- The body shared by the cases of `DumpObject`:
`if json, err := json.Marshal(x); err != nil { Printf(...) } else { output = string(json) }`.
The result is the new value of `output` and what was printed. -/
def dumpJSON (d : DumpEnv) (output : String) (x : Object) : String × List String :=
  match d.MarshalObject x with
  | (_, some err) => (output, [errorLine err])
  | (json, none) => (json, [])

/-- Source `DumpObject` (utils.go:67): the returned string and the lines printed on the way. -/
def DumpObject (d : DumpEnv) (o : Object) : String × List String :=
  let output := d.GoSyntax o
  let ro := o
  match ro with
  | .Generic .GatewayClass _ => dumpJSON d output (strip ro)
  | .Generic .Gateway _ => dumpJSON d output (strip ro)
  | .Generic .UDPRoute _ => dumpJSON d output (strip ro)
  | .Generic .UDPRouteV1A2 _ => dumpJSON d output (strip ro)
  | .Generic .Service _ => dumpJSON d output (strip ro)
  | .Generic .Deployment _ => dumpJSON d output (strip ro)
  | .Generic .GatewayConfig _ => dumpJSON d output (strip ro)
  | .StaticService _ => dumpJSON d output (strip ro)
  | .Generic .Dataplane _ => dumpJSON d output (strip ro)
  | .ConfigMap cm => dumpJSON d output (strip (.ConfigMap (stripCM d.env cm)))
  | .Generic (.Other _) _ => (output, [])

/-- Whether the type switch of `DumpObject` has a case for the dynamic type of the object. -/
def Object.hasDumpRule : Object → Bool
  | .Generic (.Other _) _ => false
  | _ => true

/-- The copy that `DumpObject` hands to `json.Marshal` for an object with a dump rule. -/
def dumpedCopy (d : DumpEnv) : Object → Object
  | .ConfigMap cm => strip (.ConfigMap (stripCM d.env cm))
  | o => strip o

/-! ## Metadata merge -/

/-- Map write `m[k] = v` on the entries of a non-nil map: replace the value of a present key,
add the entry otherwise. -/
def setEntry (kvs : List (String × String)) (k v : String) : List (String × String) :=
  if kvs.any (fun kv => kv.1 == k) then
    kvs.map (fun kv => if kv.1 == k then (kv.1, v) else kv)
  else kvs ++ [(k, v)]

/-- The loop `for k, v := range m { ret[k] = v }`; ranging over the nil map does nothing. -/
def copyInto (ret : List (String × String)) (m : GoMap) : List (String × String) :=
  m.entries.foldl (fun r kv => setEntry r kv.1 kv.2) ret

/-- Source `MergeMetadata` (utils.go:278). -/
def MergeMetadata (a b : GoMap) : GoMap :=
  let ret : List (String × String) := []
  let ret := copyInto ret a
  let ret := copyInto ret b
  some ret

/-- Keys of a Go map are pairwise distinct. -/
def GoMap.WF (m : GoMap) : Prop := (m.entries.map Prod.fst).Nodup

instance (m : GoMap) : Decidable m.WF :=
  inferInstanceAs (Decidable (m.entries.map Prod.fst).Nodup)

/-! ## Owner references -/

/-- Source `IsOwner` (utils.go:261); the owner is read through `GetName` and `GetUID`. -/
def IsOwner (owner owned : ObjectMeta) (kind : String) : Bool :=
  owned.OwnerReferences.any (fun ownerRef =>
    ownerRef.Name == owner.Name && ownerRef.UID == owner.UID && ownerRef.Kind == kind)

/-! ## The generic store -/

/-- Modelled from the spec: the Generic Store of the operator's `internal/store/store.go`, which
is not among the sources, together with the memory it shares with its callers. `heap` holds the
objects behind pointers, a pointer being an index into it; `entries` maps an identity to the
pointer of the object the store holds for it. The spec describes a mapping from identity to
stored object with unique keys, each stored object "exclusively owned by the cache once
inserted". -/
structure StoreMemory where
  heap : List Object
  entries : List (NamespacedName × Nat)

/-- The object behind a pointer, none for a pointer to nothing. -/
def StoreMemory.load (m : StoreMemory) (p : Nat) : Option Object :=
  m.heap[p]?

/-- Modelled from the spec: `Upsert(identity, object)` of the missing `store.go`, which "inserts
or unconditionally replaces the entry at identity"; since callers never hold "a handle that
aliases the cache's internal state", the store keeps a copy of the object behind `p` in a cell of
its own. -/
def StoreMemory.Upsert (m : StoreMemory) (k : NamespacedName) (p : Nat) : StoreMemory :=
  match m.load p with
  | none => m
  | some o =>
    { heap := m.heap ++ [o]
      entries := (k, m.heap.length) :: m.entries.filter (fun e => !(e.1 == k)) }

/-- Modelled from the spec: `Get(identity)` of the missing `store.go`, which "returns the current
entry or an explicit not found result"; the caller receives the value of the stored object. -/
def StoreMemory.Get (m : StoreMemory) (k : NamespacedName) : Option Object :=
  match m.entries.find? (fun e => e.1 == k) with
  | none => none
  | some e => m.load e.2

/-- Modelled from the spec: `GetAll()` of the missing `store.go`, a snapshot of all current
entries. -/
def StoreMemory.GetAll (m : StoreMemory) : List Object :=
  m.entries.filterMap (fun e => m.load e.2)

/-- Modelled from the spec: `Delete(identity)` of the missing `store.go`, which "removes the
entry if present; no-op if absent". -/
def StoreMemory.Delete (m : StoreMemory) (k : NamespacedName) : StoreMemory :=
  { m with entries := m.entries.filter (fun e => !(e.1 == k)) }

/-- The typed view over the store. -/
def StoreMemory.typed (m : StoreMemory) : StaticServiceStore :=
  { Store := { Objects := m.GetAll, Get := m.Get } }

/-- A write of the caller through its own pointer to a StaticService: the object behind `p`
becomes `f` of what it was. -/
def StoreMemory.mutate (m : StoreMemory) (p : Nat) (f : StaticService → StaticService) :
    StoreMemory :=
  match m.load p with
  | some (.StaticService v) => { m with heap := m.heap.set p (Object.StaticService (f v)) }
  | _ => m

/-- A store that keeps the pointer of the caller instead of a copy. It is not the store of the
specification; it serves to show that reading back the stored value after the caller mutates its
object depends on the copy made by `Upsert`. -/
def StoreMemory.UpsertShared (m : StoreMemory) (k : NamespacedName) (p : Nat) : StoreMemory :=
  { m with entries := (k, p) :: m.entries.filter (fun e => !(e.1 == k)) }

/-! ## Properties as the specification words them -/

/-- The three-step membership rule of the specification for a candidate group and kind: reject
when the group is present and differs, reject when the kind is present and differs, otherwise
accept. -/
def threeStepRule (ref : BackendRef) (group kind : String) : Bool :=
  if setAndDiffers ref.Group group then false
  else if setAndDiffers ref.Kind kind then false
  else true

/-- The configuration `out` equals `conf` except for the redaction: each of the credential
entries username, password and secret that `conf` has holds "-SECRET-" in `out`, every other
credential key reads as in `conf` and the keys are the same; each listener has "-SECRET-" for a
non-empty Cert and for a non-empty Key and the empty string for an empty one; every other part
of the configuration and of each listener, the presence of the listener list included, is the
same. -/
def isRedactionOf (conf out : StunnerConfig) : Prop :=
  (∀ k : String, out.Auth.Credentials.lookup k =
    if (k = "username" ∨ k = "password" ∨ k = "secret") ∧
        (conf.Auth.Credentials.lookup k).isSome = true then some "-SECRET-"
    else conf.Auth.Credentials.lookup k) ∧
  out.Auth.Credentials.entries.map Prod.fst = conf.Auth.Credentials.entries.map Prod.fst ∧
  out.Auth.Credentials.isSome = conf.Auth.Credentials.isSome ∧
  out.Auth.rest = conf.Auth.rest ∧
  out.rest = conf.rest ∧
  out.Listeners.isSome = conf.Listeners.isSome ∧
  (Slice.elems out.Listeners).length = (Slice.elems conf.Listeners).length ∧
  (∀ (i : Nat) (l : ListenerConfig), (Slice.elems conf.Listeners)[i]? = some l →
    ∃ r : ListenerConfig, (Slice.elems out.Listeners)[i]? = some r ∧
      r.Cert = (if l.Cert = "" then "" else "-SECRET-") ∧
      r.Key = (if l.Key = "" then "" else "-SECRET-") ∧
      r.rest = l.rest)

/-- The credential keys that `stripCM` overwrites. -/
def isCredentialKey (k : String) : Bool :=
  k == "username" || k == "password" || k == "secret"

/-- Two credential entries with one key, whose values may differ only under a credential key. -/
def sameEntryUpToSecret (e1 e2 : String × String) : Prop :=
  e1.1 = e2.1 ∧ (isCredentialKey e1.1 = false → e1.2 = e2.2)

/-- Two credential maps with the same keys that differ only in the values under the credential
keys. -/
def sameCredentialsUpToSecrets : GoMap → GoMap → Prop
  | none, none => True
  | some l1, some l2 => List.Forall₂ sameEntryUpToSecret l1 l2
  | _, _ => False

/-- Two listeners that differ only in a Cert that is non-empty in both and a Key that is
non-empty in both. -/
def sameListenerUpToSecrets (l1 l2 : ListenerConfig) : Prop :=
  l1.rest = l2.rest ∧
    (l1.Cert = l2.Cert ∨ (l1.Cert ≠ "" ∧ l2.Cert ≠ "")) ∧
    (l1.Key = l2.Key ∨ (l1.Key ≠ "" ∧ l2.Key ≠ ""))

/-- Two listener slices that differ only in non-empty Cert and Key values. -/
def sameListenersUpToSecrets : Slice ListenerConfig → Slice ListenerConfig → Prop
  | none, none => True
  | some l1, some l2 => List.Forall₂ sameListenerUpToSecrets l1 l2
  | _, _ => False

/-- Two configurations that differ only in secret values. -/
def sameConfigUpToSecrets (c1 c2 : StunnerConfig) : Prop :=
  c1.rest = c2.rest ∧ c1.Auth.rest = c2.Auth.rest ∧
    sameCredentialsUpToSecrets c1.Auth.Credentials c2.Auth.Credentials ∧
    sameListenersUpToSecrets c1.Listeners c2.Listeners

/-! ## Sample values -/

/-- Metadata with the given identity and generation and nothing else set. -/
def sampleMeta (ns name : String) (gen : Int) : ObjectMeta :=
  { Namespace := ns, Name := name, UID := "", Generation := gen, Labels := none,
    Annotations := none, OwnerReferences := [], ManagedFields := none }

def svcA : StaticService := { meta := sampleMeta "x" "a" 1, Spec := "10.0.0.0/8" }

def svcB : StaticService := { meta := sampleMeta "x" "b" 2, Spec := "192.168.0.0/16" }

def gatewayG : Resource := { meta := sampleMeta "x" "g" 1, payload := "" }

/-- A store holding two StaticServices. -/
def typedStore : StaticServiceStore :=
  { Store :=
    { Objects := [Object.StaticService svcA, Object.StaticService svcB]
      Get := fun k =>
        if k = ⟨"x", "a"⟩ then some (Object.StaticService svcA)
        else if k = ⟨"x", "b"⟩ then some (Object.StaticService svcB)
        else none } }

/-- A store holding no object. -/
def emptyStore : StaticServiceStore :=
  { Store := { Objects := [], Get := fun _ => none } }

/-- A store into which a Gateway was written after a StaticService. -/
def mixedStore : StaticServiceStore :=
  { Store :=
    { Objects := [Object.StaticService svcA, Object.Generic GoType.Gateway gatewayG]
      Get := fun k =>
        if k = ⟨"x", "a"⟩ then some (Object.StaticService svcA)
        else if k = ⟨"x", "g"⟩ then some (Object.Generic GoType.Gateway gatewayG)
        else none } }

/-- A configuration with a password, a user name and one listener carrying a certificate. -/
def plainConf : StunnerConfig :=
  { Auth := { Credentials := some [("username", "admin"), ("password", "hunter2")],
              rest := "realm=stunner.l7mp.io" }
    Listeners := some [{ Cert := "PEM...", Key := "", rest := "udp-listener:3478" }]
    rest := "v1" }

/-- A two-document stand-in for `encoding/json`: the document "plain" decodes to `plainConf`,
"redacted" to its redaction, anything else is a syntax error. -/
def sampleEnv : Env :=
  { DefaultStunnerdConfigfileName := "stunnerd.conf"
    Unmarshal := fun doc conf =>
      if doc = "plain" then (plainConf, none)
      else if doc = "redacted" then (redactConfig plainConf, none)
      else (conf, some "invalid character")
    Marshal := fun conf =>
      if conf = redactConfig plainConf then ("redacted", none)
      else if conf = plainConf then ("plain", none)
      else ("other", none) }

/-- A ConfigMap holding the document "plain" and an unrelated key. -/
def plainCM : ConfigMap :=
  { meta := sampleMeta "x" "stunnerd-config" 1
    Data := some [("README", "generated"), ("stunnerd.conf", "plain")]
    BinaryData := "" }

/-- A ConfigMap without the document key. -/
def keylessCM : ConfigMap :=
  { meta := sampleMeta "x" "stunnerd-config" 1
    Data := some [("README", "generated")]
    BinaryData := "" }

/-- A ConfigMap whose document does not decode. -/
def brokenCM : ConfigMap :=
  { meta := sampleMeta "x" "stunnerd-config" 1
    Data := some [("stunnerd.conf", "not json")]
    BinaryData := "" }

/-- An object whose name contains the separator. -/
def slashNameObj : Object := Object.StaticService { meta := sampleMeta "a" "b/c" 1, Spec := "" }

/-- An object whose namespace contains the separator. -/
def slashNamespaceObj : Object :=
  Object.StaticService { meta := sampleMeta "a/b" "c" 1, Spec := "" }

/-- A cluster-scoped object: the namespace is empty. -/
def clusterObj : Object := Object.StaticService { meta := sampleMeta "" "b" 1, Spec := "" }

/-- Labels of a Dataplane. -/
def labelsA : GoMap := some [("app", "stunner"), ("tier", "edge")]

/-- Labels of a Gateway, colliding with `labelsA` on "app". -/
def labelsB : GoMap := some [("app", "gateway"), ("owner", "ops")]

/-- A stand-in for the formatter and the object encoder: the encoder refuses the Deployments. -/
def sampleDumpEnv : DumpEnv :=
  { env := sampleEnv
    GoSyntax := fun o => "&Object(" ++ o.GetNamespace ++ "/" ++ o.GetName ++ ")"
    MarshalObject := fun o =>
      match o with
      | .Generic .Deployment _ => ("", some "json: unsupported value")
      | _ => ("json(" ++ o.GetName ++ ")", none) }

/-- A Deployment, which `sampleDumpEnv` cannot encode. -/
def deploymentD : Object :=
  Object.Generic GoType.Deployment { meta := sampleMeta "x" "d" 1, payload := "" }

/-- An object of a kind without a dump rule. -/
def secretS : Object :=
  Object.Generic (GoType.Other "*v1.Secret") { meta := sampleMeta "x" "s" 1, payload := "token" }

/-- The configuration `plainConf` with other secret values. -/
def otherConf : StunnerConfig :=
  { Auth := { Credentials := some [("username", "root"), ("password", "swordfish")],
              rest := "realm=stunner.l7mp.io" }
    Listeners := some [{ Cert := "PEM2...", Key := "", rest := "udp-listener:3478" }]
    rest := "v1" }

/-- A three-document stand-in for `encoding/json`: "plain" decodes to `plainConf`, "other" to
`otherConf`, "redacted" to their common redaction. -/
def pairEnv : DumpEnv :=
  { env :=
    { DefaultStunnerdConfigfileName := "stunnerd.conf"
      Unmarshal := fun doc conf =>
        if doc = "plain" then (plainConf, none)
        else if doc = "other" then (otherConf, none)
        else if doc = "redacted" then (redactConfig plainConf, none)
        else (conf, some "invalid character")
      Marshal := fun conf =>
        if conf = redactConfig plainConf then ("redacted", none) else ("unknown", none) }
    GoSyntax := fun o =>
      match o with
      | .ConfigMap cm => "&ConfigMap(" ++ String.join (cm.Data.entries.map Prod.snd) ++ ")"
      | _ => "&Object"
    MarshalObject := fun o =>
      match o with
      | .ConfigMap cm => ("json(" ++ String.join (cm.Data.entries.map Prod.snd) ++ ")", none)
      | _ => ("json", none) }

/-- The ConfigMap `plainCM` holding the document "other". -/
def otherCM : ConfigMap :=
  { meta := sampleMeta "x" "stunnerd-config" 1
    Data := some [("README", "generated"), ("stunnerd.conf", "other")]
    BinaryData := "" }

/-- A Gateway that owns a Deployment. -/
def ownerMeta : ObjectMeta :=
  { sampleMeta "x" "gw" 1 with UID := "uid-1" }

/-- A Deployment in another namespace, owned by the Gateway `ownerMeta`. -/
def ownedMeta : ObjectMeta :=
  { sampleMeta "y" "stunnerd" 1 with
    OwnerReferences := [⟨"GatewayClass", "gw", "uid-1"⟩, ⟨"Gateway", "gw", "uid-1"⟩] }

/-- An object with owner references none of which carries name, UID and kind together. -/
def splitOwnedMeta : ObjectMeta :=
  { sampleMeta "x" "stunnerd" 1 with
    OwnerReferences := [⟨"Gateway", "gw", "uid-2"⟩, ⟨"GatewayClass", "gw", "uid-1"⟩] }

/-- The memory of a caller holding `svcA` behind pointer 0, with an empty store. -/
def callerMemory : StoreMemory :=
  { heap := [Object.StaticService svcA], entries := [] }

/-- A mutation of a StaticService: its prefixes are replaced. -/
def respec (v : StaticService) : StaticService := { v with Spec := "0.0.0.0/0" }

/-- A configuration with a password and a listener list that is present and empty. -/
def emptyListConf : StunnerConfig :=
  { Auth := { Credentials := some [("password", "hunter2")], rest := "realm=stunner.l7mp.io" }
    Listeners := some []
    rest := "v1" }

/-- What decoding gives when the document has no listener entry: the listener list is nil. -/
def omittedListConf : StunnerConfig :=
  { Auth := { Credentials := some [("password", "-SECRET-")], rest := "realm=stunner.l7mp.io" }
    Listeners := none
    rest := "v1" }

/-- A stand-in for `encoding/json` with an omit-when-empty listener field: the document
"listeners-empty" decodes to `emptyListConf`; encoding a configuration with an empty listener
list leaves the field out, giving "listeners-omitted", which decodes with a nil listener list. -/
def omitEmptyEnv : Env :=
  { DefaultStunnerdConfigfileName := "stunnerd.conf"
    Unmarshal := fun doc conf =>
      if doc = "listeners-empty" then (emptyListConf, none)
      else if doc = "listeners-omitted" then (omittedListConf, none)
      else (conf, some "invalid character")
    Marshal := fun conf =>
      if conf = redactConfig emptyListConf then ("listeners-omitted", none)
      else ("unknown", none) }

/-- A ConfigMap whose document has an empty listener list. -/
def emptyListCM : ConfigMap :=
  { meta := sampleMeta "x" "stunnerd-config" 1
    Data := some [("stunnerd.conf", "listeners-empty")]
    BinaryData := "" }

/-! ## Typed view: `StaticServiceStore` -/

theorem GetAll_loop_ok (objs : List Object) (acc : List StaticService)
    (h : ∀ o ∈ objs, o.isStaticService = true) :
    ∃ rs : List StaticService,
      StaticServiceStore.GetAll.loop objs (some acc) = .ok (some (acc ++ rs)) ∧
        rs.map Object.StaticService = objs := by
  induction objs generalizing acc with
  | nil => exact ⟨[], by simp [StaticServiceStore.GetAll.loop], rfl⟩
  | cons o rest ih =>
    have ho := h o (List.mem_cons_self _ _)
    cases o with
    | StaticService r =>
      obtain ⟨rs, h1, h2⟩ := ih (acc ++ [r]) (fun x hx => h x (List.mem_cons_of_mem _ hx))
      refine ⟨r :: rs, ?_, by simp [h2]⟩
      simpa [StaticServiceStore.GetAll.loop, Slice.append, Slice.elems] using h1
    | ConfigMap c => simp [Object.isStaticService] at ho
    | Generic t g => simp [Object.isStaticService] at ho

theorem GetAll_loop_panic (objs : List Object) (ret : Slice StaticService)
    (h : ∃ o ∈ objs, o.isStaticService = false) :
    StaticServiceStore.GetAll.loop objs ret = .error invalidObjectPanic := by
  induction objs generalizing ret with
  | nil => simp at h
  | cons o rest ih =>
    cases o with
    | StaticService r =>
      obtain ⟨x, hx, hb⟩ := h
      rcases List.mem_cons.1 hx with rfl | hx
      · simp [Object.isStaticService] at hb
      · simpa [StaticServiceStore.GetAll.loop] using ih _ ⟨x, hx, hb⟩
    | ConfigMap c => simp [StaticServiceStore.GetAll.loop]
    | Generic t g => simp [StaticServiceStore.GetAll.loop]

/-- C1: when every stored object is a StaticService, GetAll returns a non-nil sequence of the
same length whose i-th element is the i-th stored object; an empty store gives the empty non-nil
sequence; and when some stored object is of another kind, GetAll panics. -/
theorem GetAll_contract (s : StaticServiceStore) :
    ((∀ o ∈ s.Store.Objects, o.isStaticService = true) →
      ∃ ret : List StaticService, s.GetAll = .ok (some ret) ∧
        ret.length = s.Store.Objects.length ∧
        ∀ i : Nat, s.Store.Objects[i]? = (ret[i]?).map Object.StaticService) ∧
    (s.Store.Objects = [] → s.GetAll = .ok (some [])) ∧
    ((∃ o ∈ s.Store.Objects, o.isStaticService = false) →
      s.GetAll = .error invalidObjectPanic) := by
  refine ⟨?_, ?_, ?_⟩
  · intro h
    obtain ⟨rs, h1, h2⟩ := GetAll_loop_ok s.Store.Objects [] h
    refine ⟨rs, by simpa [StaticServiceStore.GetAll, Slice.elems] using h1, ?_, ?_⟩
    · rw [← h2, List.length_map]
    · intro i
      rw [← h2, List.getElem?_map]
  · intro h
    simp [StaticServiceStore.GetAll, h, StaticServiceStore.GetAll.loop]
  · intro h
    exact GetAll_loop_panic _ _ h

/-- C2: GetObject returns nil when the store has no entry, the stored object when it is a
StaticService, and panics when the stored object is of another kind. -/
theorem GetObject_contract (s : StaticServiceStore) (nsName : NamespacedName) :
    (s.Store.Get nsName = none → s.GetObject nsName = .ok none) ∧
    (∀ r : StaticService, s.Store.Get nsName = some (Object.StaticService r) →
      s.GetObject nsName = .ok (some r)) ∧
    (∀ o : Object, s.Store.Get nsName = some o → o.isStaticService = false →
      s.GetObject nsName = .error invalidObjectPanic) := by
  refine ⟨?_, ?_, ?_⟩
  · intro h
    simp [StaticServiceStore.GetObject, h]
  · intro r h
    simp [StaticServiceStore.GetObject, h]
  · intro o h hk
    cases o with
    | StaticService r => simp [Object.isStaticService] at hk
    | ConfigMap c => simp [StaticServiceStore.GetObject, h]
    | Generic t g => simp [StaticServiceStore.GetObject, h]

theorem GetAll_contract_witness :
    (∃ ret : List StaticService, typedStore.GetAll = .ok (some ret) ∧
      ret.length = typedStore.Store.Objects.length ∧
      ∀ i : Nat, typedStore.Store.Objects[i]? = (ret[i]?).map Object.StaticService) ∧
    emptyStore.GetAll = .ok (some []) ∧
    mixedStore.GetAll = .error invalidObjectPanic :=
  ⟨(GetAll_contract typedStore).1 (by decide), (GetAll_contract emptyStore).2.1 rfl,
    (GetAll_contract mixedStore).2.2 (by decide)⟩

theorem GetObject_contract_witness :
    typedStore.GetObject ⟨"x", "zz"⟩ = .ok none ∧
    typedStore.GetObject ⟨"x", "a"⟩ = .ok (some svcA) ∧
    mixedStore.GetObject ⟨"x", "g"⟩ = .error invalidObjectPanic :=
  ⟨(GetObject_contract typedStore ⟨"x", "zz"⟩).1 (by decide),
    (GetObject_contract typedStore ⟨"x", "a"⟩).2.1 svcA (by decide),
    (GetObject_contract mixedStore ⟨"x", "g"⟩).2.2 (Object.Generic GoType.Gateway gatewayG)
      (by decide) (by decide)⟩

/-! ## Change detection -/

theorem Object.meta_setMeta (o : Object) (m : ObjectMeta) : (o.setMeta m).meta = m := by
  cases o <;> rfl

theorem compareObjects_eq_true_iff (o1 o2 : Object) :
    compareObjects o1 o2 = true ↔
      o1.GetNamespace = o2.GetNamespace ∧ o1.GetName = o2.GetName ∧
        o1.GetGeneration = o2.GetGeneration := by
  simp [compareObjects, and_assoc]

/-- C3: compareObjects is true exactly when namespace, name and generation agree; two objects
with one identity and generation 3 compare as unchanged, and with generations 3 and 4 as changed,
whatever the rest of either object is. -/
theorem compareObjects_iff (o1 o2 : Object) :
    (compareObjects o1 o2 = true ↔
      o1.GetNamespace = o2.GetNamespace ∧ o1.GetName = o2.GetName ∧
        o1.GetGeneration = o2.GetGeneration) ∧
    (∀ ns name : String,
      compareObjects
        (o1.setMeta { o1.meta with Namespace := ns, Name := name, Generation := 3 })
        (o2.setMeta { o2.meta with Namespace := ns, Name := name, Generation := 3 }) = true) ∧
    (∀ ns name : String,
      compareObjects
        (o1.setMeta { o1.meta with Namespace := ns, Name := name, Generation := 3 })
        (o2.setMeta { o2.meta with Namespace := ns, Name := name, Generation := 4 }) = false) := by
  refine ⟨compareObjects_eq_true_iff o1 o2, ?_, ?_⟩
  · intro ns name
    simp [compareObjects, Object.GetNamespace, Object.GetName, Object.GetGeneration,
      Object.meta_setMeta]
  · intro ns name
    simp [compareObjects, Object.GetNamespace, Object.GetName, Object.GetGeneration,
      Object.meta_setMeta]

/-! ## Reference classification -/

theorem IsReferenceService_eq_true_iff (ref : BackendRef) :
    IsReferenceService ref = true ↔
      (ref.Group = none ∨ ref.Group = some "") ∧
        (ref.Kind = none ∨ ref.Kind = some "Service") := by
  obtain ⟨g, k, ns, n⟩ := ref
  cases g <;> cases k <;> simp [IsReferenceService, setAndDiffers, corev1GroupName]

theorem IsReferenceStaticService_eq_true_iff (ref : BackendRef) :
    IsReferenceStaticService ref = true ↔
      ref.Group = some "stunner.l7mp.io" ∧ ref.Kind = some "StaticService" := by
  obtain ⟨g, k, ns, n⟩ := ref
  cases g <;> cases k <;> simp [IsReferenceStaticService, nilOrDiffers, GroupVersionGroup]

/-- C4: IsReferenceService is true exactly when the group is absent or the core group (the empty
string) and the kind is absent or "Service"; namespace and name do not influence the result. -/
theorem IsReferenceService_iff (ref : BackendRef) :
    (IsReferenceService ref = true ↔
      (ref.Group = none ∨ ref.Group = some corev1GroupName) ∧
        (ref.Kind = none ∨ ref.Kind = some "Service")) ∧
    corev1GroupName = "" ∧
    ∀ (ns : Option String) (name : String),
      IsReferenceService { ref with Namespace := ns, Name := name } = IsReferenceService ref := by
  refine ⟨IsReferenceService_eq_true_iff ref, rfl, ?_⟩
  intro ns name
  rfl

/-- C5: IsReferenceStaticService is true exactly when the group is present and equals
"stunner.l7mp.io" and the kind is present and equals "StaticService"; an absent group or an
absent kind is rejected. -/
theorem IsReferenceStaticService_iff (ref : BackendRef) :
    (IsReferenceStaticService ref = true ↔
      ref.Group = some "stunner.l7mp.io" ∧ ref.Kind = some "StaticService") ∧
    ((ref.Group = none ∨ ref.Kind = none) → IsReferenceStaticService ref = false) := by
  refine ⟨IsReferenceStaticService_eq_true_iff ref, ?_⟩
  intro h
  cases hb : IsReferenceStaticService ref with
  | false => rfl
  | true =>
    obtain ⟨hg, hk⟩ := (IsReferenceStaticService_eq_true_iff ref).1 hb
    rcases h with h | h
    · rw [hg] at h; cases h
    · rw [hk] at h; cases h

theorem IsReferenceStaticService_iff_witness :
    IsReferenceStaticService ⟨none, some "StaticService", none, "s1"⟩ = false :=
  (IsReferenceStaticService_iff ⟨none, some "StaticService", none, "s1"⟩).2 (Or.inl rfl)

/-- C6: the two classification predicates are never both true; exactly one is true when the
reference names kind Service in the core group (group absent or empty, kind absent or "Service")
or kind StaticService in group "stunner.l7mp.io" (both present); both are false for every other
reference, such as group "other.io" with kind "Service". -/
theorem classification_partition (ref : BackendRef) :
    ¬ (IsReferenceService ref = true ∧ IsReferenceStaticService ref = true) ∧
    ((((ref.Group = none ∨ ref.Group = some "") ∧ (ref.Kind = none ∨ ref.Kind = some "Service")) ∨
        (ref.Group = some "stunner.l7mp.io" ∧ ref.Kind = some "StaticService")) →
      (IsReferenceService ref = true ∧ IsReferenceStaticService ref = false) ∨
        (IsReferenceService ref = false ∧ IsReferenceStaticService ref = true)) ∧
    (¬ (((ref.Group = none ∨ ref.Group = some "") ∧
          (ref.Kind = none ∨ ref.Kind = some "Service")) ∨
        (ref.Group = some "stunner.l7mp.io" ∧ ref.Kind = some "StaticService")) →
      IsReferenceService ref = false ∧ IsReferenceStaticService ref = false) ∧
    (ref.Group = some "other.io" → ref.Kind = some "Service" →
      IsReferenceService ref = false ∧ IsReferenceStaticService ref = false) := by
  have hS := IsReferenceService_eq_true_iff ref
  have hT := IsReferenceStaticService_eq_true_iff ref
  obtain ⟨g, k, ns, n⟩ := ref
  cases hs : IsReferenceService ⟨g, k, ns, n⟩ <;>
    cases ht : IsReferenceStaticService ⟨g, k, ns, n⟩ <;>
    simp only [hs, ht] at hS hT <;> simp_all
  intro hg
  simp_all

theorem classification_partition_witness :
    (IsReferenceService ⟨none, none, none, "svc"⟩ = true ∧
        IsReferenceStaticService ⟨none, none, none, "svc"⟩ = false) ∨
      (IsReferenceService ⟨none, none, none, "svc"⟩ = false ∧
        IsReferenceStaticService ⟨none, none, none, "svc"⟩ = true) :=
  (classification_partition ⟨none, none, none, "svc"⟩).2.1 (Or.inl ⟨Or.inl rfl, Or.inl rfl⟩)

/-! ## Go maps -/

theorem find_filter_self (kvs : List (String × String)) (k : String) :
    (kvs.filter (fun kv => !(kv.1 == k))).find? (fun kv => kv.1 == k) = none := by
  induction kvs with
  | nil => rfl
  | cons kv rest ih =>
    by_cases hk : kv.1 = k
    · rw [List.filter_cons_of_neg (by simp [hk])]
      exact ih
    · rw [List.filter_cons_of_pos (by simp [hk]), List.find?_cons_of_neg _ (by simp [hk])]
      exact ih

theorem find_filter_of_ne (kvs : List (String × String)) (k j : String) (h : j ≠ k) :
    (kvs.filter (fun kv => !(kv.1 == k))).find? (fun kv => kv.1 == j) =
      kvs.find? (fun kv => kv.1 == j) := by
  induction kvs with
  | nil => rfl
  | cons kv rest ih =>
    by_cases hk : kv.1 = k
    · have hj : ¬ kv.1 = j := fun e => h (e.symm.trans hk)
      rw [List.filter_cons_of_neg (by simp [hk]), List.find?_cons_of_neg _ (by simp [hj])]
      exact ih
    · rw [List.filter_cons_of_pos (by simp [hk])]
      by_cases hj : kv.1 = j
      · rw [List.find?_cons_of_pos _ (by simp [hj]), List.find?_cons_of_pos _ (by simp [hj])]
      · rw [List.find?_cons_of_neg _ (by simp [hj]), List.find?_cons_of_neg _ (by simp [hj])]
        exact ih

theorem GoMap.lookup_delete_self (m : GoMap) (k : String) : (m.delete k).lookup k = none := by
  cases m with
  | none => rfl
  | some kvs =>
    show Option.map Prod.snd ((kvs.filter (fun kv => !(kv.1 == k))).find? _) = none
    rw [find_filter_self]
    rfl

theorem GoMap.lookup_delete_of_ne (m : GoMap) (k j : String) (h : j ≠ k) :
    (m.delete k).lookup j = m.lookup j := by
  cases m with
  | none => rfl
  | some kvs =>
    show Option.map Prod.snd ((kvs.filter (fun kv => !(kv.1 == k))).find? _) = _
    rw [find_filter_of_ne _ _ _ h]
    rfl

/-! ## Redaction of metadata -/

/-- C8: strip removes the last-applied-configuration annotation, keeps every other annotation
with its value and adds none, leaves an empty managed-fields list, and changes nothing else:
identity, generation, labels, owner references, dynamic type and payload are as before. -/
theorem strip_frame (o : Object) :
    (strip o).meta.Annotations.lookup "kubectl.kubernetes.io/last-applied-configuration" = none ∧
    (∀ k : String, k ≠ "kubectl.kubernetes.io/last-applied-configuration" →
      (strip o).meta.Annotations.lookup k = o.meta.Annotations.lookup k) ∧
    (strip o).meta.ManagedFields = some [] ∧
    strip o = o.setMeta { o.meta with
      Annotations := (strip o).meta.Annotations, ManagedFields := some [] } ∧
    (strip o).meta.Namespace = o.meta.Namespace ∧
    (strip o).meta.Name = o.meta.Name ∧
    (strip o).meta.UID = o.meta.UID ∧
    (strip o).meta.Generation = o.meta.Generation ∧
    (strip o).meta.Labels = o.meta.Labels ∧
    (strip o).meta.OwnerReferences = o.meta.OwnerReferences := by
  by_cases h : (o.meta.Annotations.lookup lastAppliedKey).isSome = true
  · have hs : strip o = o.setMeta { o.meta with
        Annotations := o.meta.Annotations.delete lastAppliedKey,
        ManagedFields := some [] } := by
      cases o <;>
        simp [strip, Object.GetAnnotations, Object.SetAnnotations, Object.SetManagedFields,
          Object.setMeta, Object.meta] at h ⊢ <;> simp [h]
    rw [hs]
    refine ⟨?_, ?_, ?_, ?_, ?_, ?_, ?_, ?_, ?_, ?_⟩ <;> simp only [Object.meta_setMeta]
    · exact GoMap.lookup_delete_self _ _
    · intro k hk
      exact GoMap.lookup_delete_of_ne _ _ _ hk
  · have hs : strip o = o.setMeta { o.meta with ManagedFields := some [] } := by
      cases o <;>
        simp [strip, Object.GetAnnotations, Object.SetAnnotations, Object.SetManagedFields,
          Object.setMeta, Object.meta] at h ⊢ <;> simp [h]
    rw [hs]
    refine ⟨?_, ?_, ?_, ?_, ?_, ?_, ?_, ?_, ?_, ?_⟩ <;> simp only [Object.meta_setMeta]
    · simpa [lastAppliedKey] using h
    · intro k _
      trivial

/-! ## Unpacking a configuration document -/

/-- C9: UnpackConfigMap fails exactly when the document key is missing from Data (then with the
zero configuration and the not-found error) or the value under it does not decode (then with the
decoder's error); otherwise it returns the decoded configuration with no error; and its result
depends on Data only through the value under the document key. -/
theorem UnpackConfigMap_error_iff (env : Env) (cm : ConfigMap) :
    ((UnpackConfigMap env cm).2 ≠ none ↔
      cm.Data.lookup env.DefaultStunnerdConfigfileName = none ∨
        ∃ doc : String, cm.Data.lookup env.DefaultStunnerdConfigfileName = some doc ∧
          (env.Unmarshal doc StunnerConfig.zero).2 ≠ none) ∧
    (cm.Data.lookup env.DefaultStunnerdConfigfileName = none →
      UnpackConfigMap env cm =
        (StunnerConfig.zero,
          some ("Error unpacking configmap data: " ++ env.DefaultStunnerdConfigfileName ++
            " not found"))) ∧
    (∀ doc : String, cm.Data.lookup env.DefaultStunnerdConfigfileName = some doc →
      UnpackConfigMap env cm = env.Unmarshal doc StunnerConfig.zero) ∧
    (∀ cm2 : ConfigMap,
      cm2.Data.lookup env.DefaultStunnerdConfigfileName =
          cm.Data.lookup env.DefaultStunnerdConfigfileName →
        UnpackConfigMap env cm2 = UnpackConfigMap env cm) := by
  have hdoc : ∀ (c : ConfigMap) (doc : String),
      c.Data.lookup env.DefaultStunnerdConfigfileName = some doc →
        UnpackConfigMap env c = env.Unmarshal doc StunnerConfig.zero := by
    intro c doc h
    unfold UnpackConfigMap
    simp only [h]
    rcases env.Unmarshal doc StunnerConfig.zero with ⟨c1, _ | e⟩ <;> rfl
  have hnone : ∀ c : ConfigMap, c.Data.lookup env.DefaultStunnerdConfigfileName = none →
      UnpackConfigMap env c =
        (StunnerConfig.zero,
          some ("Error unpacking configmap data: " ++ env.DefaultStunnerdConfigfileName ++
            " not found")) := by
    intro c h
    unfold UnpackConfigMap
    simp only [h]
  refine ⟨?_, hnone cm, hdoc cm, ?_⟩
  · cases h : cm.Data.lookup env.DefaultStunnerdConfigfileName with
    | none => simp [hnone cm h]
    | some doc => simp [hdoc cm doc h]
  · intro cm2 h2
    cases h : cm.Data.lookup env.DefaultStunnerdConfigfileName with
    | none => rw [hnone cm h, hnone cm2 (h2.trans h)]
    | some doc => rw [hdoc cm doc h, hdoc cm2 doc (h2.trans h)]

theorem UnpackConfigMap_error_iff_witness :
    UnpackConfigMap sampleEnv keylessCM =
        (StunnerConfig.zero, some "Error unpacking configmap data: stunnerd.conf not found") ∧
      UnpackConfigMap sampleEnv plainCM = (plainConf, none) ∧
      UnpackConfigMap sampleEnv brokenCM = (StunnerConfig.zero, some "invalid character") :=
  ⟨(UnpackConfigMap_error_iff sampleEnv keylessCM).2.1 (by decide),
    (UnpackConfigMap_error_iff sampleEnv plainCM).2.2.1 "plain" (by decide),
    (UnpackConfigMap_error_iff sampleEnv brokenCM).2.2.1 "not json" (by decide)⟩

/-! ## Identity codec -/

theorem cutFirst_append (sep : Char) (a b : List Char) (h : sep ∉ a) :
    cutFirst sep (a ++ sep :: b) = some (a, b) := by
  induction a with
  | nil => simp [cutFirst]
  | cons c cs ih =>
    have hc : c ≠ sep := fun e => h (by simp [e])
    have hcs : sep ∉ cs := fun e => h (List.mem_cons_of_mem _ e)
    simp [cutFirst, hc, ih hcs]

theorem GetNameFromKey_String (n : NamespacedName) (h : '/' ∉ n.Namespace.data) :
    GetNameFromKey n.String = .ok n := by
  have hs : stringsSplitN2 n.String '/' = [n.Namespace, n.Name] := by
    simp [stringsSplitN2, NamespacedName.String, List.append_assoc, cutFirst_append _ _ _ h]
  simp [GetNameFromKey, hs, indexString, bind, Except.bind, pure, Except.pure]

/-- C10: for an object whose namespace and name contain no "/", decoding its key gives back its
(namespace, name), and its key is namespace, "/", name; so the identity with namespace "a" and
name "b" round-trips. -/
theorem codec_round_trip (object : Object)
    (hns : '/' ∉ object.GetNamespace.data) (hname : '/' ∉ object.GetName.data) :
    GetNameFromKey (GetObjectKey object) = .ok (GetNamespacedName object) ∧
    GetNamespacedName object = ⟨object.GetNamespace, object.GetName⟩ ∧
    GetObjectKey object = object.GetNamespace ++ "/" ++ object.GetName := by
  have _ := hname
  exact ⟨GetNameFromKey_String ⟨object.GetNamespace, object.GetName⟩ hns, rfl, rfl⟩

theorem codec_round_trip_witness :
    GetNameFromKey (GetObjectKey (Object.StaticService ⟨sampleMeta "a" "b" 1, ""⟩)) =
      .ok ⟨"a", "b"⟩ :=
  (codec_round_trip (Object.StaticService ⟨sampleMeta "a" "b" 1, ""⟩)
    (by decide) (by decide)).1

/-! ## Redaction of configuration documents -/

theorem find_replace (kvs : List (String × String)) (k v j : String) :
    ((kvs.map (fun kv => if kv.1 == k then (kv.1, v) else kv)).find?
        (fun kv => kv.1 == j)).map Prod.snd =
      if j = k then ((kvs.find? (fun kv => kv.1 == j)).map Prod.snd).map (fun _ => v)
      else (kvs.find? (fun kv => kv.1 == j)).map Prod.snd := by
  induction kvs with
  | nil => simp
  | cons kv rest ih =>
    rw [List.map_cons]
    have hfst : (if (kv.1 == k) = true then (kv.1, v) else kv).1 = kv.1 := by
      split <;> rfl
    by_cases hj : kv.1 = j
    · have hp : ((if (kv.1 == k) = true then (kv.1, v) else kv).1 == j) = true := by
        rw [hfst]
        simp [hj]
      have hq : (kv.1 == j) = true := by simp [hj]
      simp only [List.find?_cons, hp, hq, Option.map_some']
      by_cases hk : j = k
      · simp [hk, hj.trans hk]
      · have hkv : ¬ kv.1 = k := fun e => hk (hj.symm.trans e)
        simp [hk, hkv]
    · have hn : ((if (kv.1 == k) = true then (kv.1, v) else kv).1 == j) = false := by
        rw [hfst]
        simp [hj]
      have hq : (kv.1 == j) = false := by simp [hj]
      simp only [List.find?_cons, hn, hq]
      exact ih

theorem GoMap.lookup_replace (m : GoMap) (k v j : String) :
    (m.replace k v).lookup j = if j = k then (m.lookup j).map (fun _ => v) else m.lookup j := by
  cases m with
  | none => simp [GoMap.replace, GoMap.lookup, GoMap.entries]
  | some kvs => exact find_replace kvs k v j

theorem GoMap.keys_replace (m : GoMap) (k v : String) :
    (m.replace k v).entries.map Prod.fst = m.entries.map Prod.fst ∧
      (m.replace k v).isSome = m.isSome := by
  cases m with
  | none => exact ⟨rfl, rfl⟩
  | some kvs =>
    refine ⟨?_, rfl⟩
    show (kvs.map _).map Prod.fst = kvs.map Prod.fst
    rw [List.map_map]
    apply List.map_congr_left
    intro kv _
    show (if (kv.1 == k) = true then (kv.1, v) else kv).1 = kv.1
    split <;> rfl

theorem redactCredential_lookup (m : GoMap) (k j : String) :
    (redactCredential m k).lookup j =
      if j = k ∧ (m.lookup j).isSome = true then some secretSentinel else m.lookup j := by
  unfold redactCredential
  by_cases hp : (m.lookup k).isSome = true
  · rw [if_pos hp, GoMap.lookup_replace]
    by_cases hj : j = k
    · subst hj
      obtain ⟨x, hx⟩ := Option.isSome_iff_exists.1 hp
      simp [hx]
    · simp [hj]
  · rw [if_neg hp]
    by_cases hj : j = k
    · subst hj
      simp [hp]
    · simp [hj]

theorem redactCredential_keys (m : GoMap) (k : String) :
    (redactCredential m k).entries.map Prod.fst = m.entries.map Prod.fst ∧
      (redactCredential m k).isSome = m.isSome := by
  unfold redactCredential
  split
  · exact GoMap.keys_replace m k secretSentinel
  · exact ⟨rfl, rfl⟩

theorem redactConfig_credentials (conf : StunnerConfig) (j : String) :
    (redactConfig conf).Auth.Credentials.lookup j =
      if (j = "username" ∨ j = "password" ∨ j = "secret") ∧
          (conf.Auth.Credentials.lookup j).isSome = true then some "-SECRET-"
      else conf.Auth.Credentials.lookup j := by
  simp only [redactConfig, redactCredential_lookup]
  by_cases h1 : j = "username"
  · subst h1
    by_cases hp : (conf.Auth.Credentials.lookup "username").isSome = true <;>
      simp [hp, secretSentinel]
  · by_cases h2 : j = "password"
    · subst h2
      by_cases hp : (conf.Auth.Credentials.lookup "password").isSome = true <;>
        simp [hp, secretSentinel]
    · by_cases h3 : j = "secret"
      · subst h3
        by_cases hp : (conf.Auth.Credentials.lookup "secret").isSome = true <;>
          simp [hp, secretSentinel]
      · simp [h1, h2, h3]

theorem redactConfig_listener (conf : StunnerConfig) (i : Nat) (l : ListenerConfig)
    (h : (Slice.elems conf.Listeners)[i]? = some l) :
    ∃ r : ListenerConfig, (Slice.elems (redactConfig conf).Listeners)[i]? = some r ∧
      r.Cert = (if l.Cert = "" then "" else "-SECRET-") ∧
      r.Key = (if l.Key = "" then "" else "-SECRET-") ∧
      r.rest = l.rest := by
  refine ⟨redactListener l, ?_, ?_, ?_, ?_⟩
  · cases hl : conf.Listeners with
    | none => simp [hl, Slice.elems] at h
    | some ls =>
      simp only [hl, Slice.elems] at h
      simp [redactConfig, hl, Slice.elems, h]
  · by_cases hc : l.Cert = "" <;> by_cases hk : l.Key = "" <;>
      simp [redactListener, hc, hk, secretSentinel]
  · by_cases hc : l.Cert = "" <;> by_cases hk : l.Key = "" <;>
      simp [redactListener, hc, hk, secretSentinel]
  · by_cases hc : l.Cert = "" <;> by_cases hk : l.Key = "" <;>
      simp [redactListener, hc, hk]

theorem GoMap.lookup_singleton (k v : String) : GoMap.lookup (some [(k, v)]) k = some v := by
  simp [GoMap.lookup, GoMap.entries]

theorem stripCM_of_ok (env : Env) (cm : ConfigMap) (conf : StunnerConfig) (sc : String)
    (hdec : UnpackConfigMap env cm = (conf, none))
    (henc : env.Marshal (redactConfig conf) = (sc, none)) :
    stripCM env cm = { cm with Data := some [(env.DefaultStunnerdConfigfileName, sc)] } := by
  unfold stripCM
  simp only [hdec, henc]

theorem UnpackConfigMap_of_lookup (env : Env) (cm : ConfigMap) (doc : String)
    (h : cm.Data.lookup env.DefaultStunnerdConfigfileName = some doc) :
    UnpackConfigMap env cm = env.Unmarshal doc StunnerConfig.zero := by
  unfold UnpackConfigMap
  simp only [h]
  rcases env.Unmarshal doc StunnerConfig.zero with ⟨c1, _ | e⟩ <;> rfl

theorem redactConfig_isRedactionOf (conf : StunnerConfig) :
    isRedactionOf conf (redactConfig conf) := by
  refine ⟨redactConfig_credentials conf, ?_, ?_, rfl, rfl, ?_, ?_, redactConfig_listener conf⟩
  · simp only [redactConfig]
    rw [(redactCredential_keys _ _).1, (redactCredential_keys _ _).1,
      (redactCredential_keys _ _).1]
  · simp only [redactConfig]
    rw [(redactCredential_keys _ _).2, (redactCredential_keys _ _).2,
      (redactCredential_keys _ _).2]
  · cases hl : conf.Listeners <;> simp [redactConfig, hl]
  · cases hl : conf.Listeners <;> simp [redactConfig, hl, Slice.elems]

theorem sampleEnv_Marshal_total (c : StunnerConfig) : (sampleEnv.Marshal c).2 = none := by
  simp only [sampleEnv]
  split_ifs <;> rfl

/-- C7, as stated, fails: with an encoder that leaves an empty listener list out, as a field
tagged omit-when-empty is, the document of `emptyListCM` decodes and json.Marshal does not fail,
yet unpacking the result of stripCM does not give the decoded configuration up to redaction: the
listener list that was present comes back nil. -/
theorem stripCM_redacts_counterexample :
    UnpackConfigMap omitEmptyEnv emptyListCM = (emptyListConf, none) ∧
    (∀ c : StunnerConfig, (omitEmptyEnv.Marshal c).2 = none) ∧
    UnpackConfigMap omitEmptyEnv (stripCM omitEmptyEnv emptyListCM) = (omittedListConf, none) ∧
    ¬ ∃ out : StunnerConfig,
      UnpackConfigMap omitEmptyEnv (stripCM omitEmptyEnv emptyListCM) = (out, none) ∧
        isRedactionOf emptyListConf out := by
  have hre : UnpackConfigMap omitEmptyEnv (stripCM omitEmptyEnv emptyListCM) =
      (omittedListConf, none) := by decide
  refine ⟨by decide, ?_, hre, ?_⟩
  · intro c
    simp only [omitEmptyEnv]
    split_ifs <;> rfl
  · rintro ⟨out, hout, hred⟩
    rw [hre] at hout
    have hout2 : omittedListConf = out := congrArg Prod.fst hout
    subst hout2
    exact absurd hred.2.2.2.2.2.1 (by decide)

/-- C7, amended: when the document of a ConfigMap decodes to conf and json.Marshal does not
fail, the document stripCM stores under the well-known key, as the single entry of Data, is the
encoding of conf up to redaction: each credential entry username, password and secret that conf
has holds "-SECRET-", absent keys stay absent, each listener has "-SECRET-" for a non-empty Cert
and Key and the empty string for an empty one, and everything else is as in conf. Unpacking the
result again returns what json.Unmarshal makes of that document, which is conf up to redaction
whenever the document decodes to the configuration encoded into it. -/
theorem stripCM_stores_redaction (env : Env) (cm : ConfigMap) (conf : StunnerConfig)
    (hdec : UnpackConfigMap env cm = (conf, none))
    (htotal : ∀ c : StunnerConfig, (env.Marshal c).2 = none) :
    ∃ (red : StunnerConfig) (sc : String),
      isRedactionOf conf red ∧
      env.Marshal red = (sc, none) ∧
      (stripCM env cm).Data = some [(env.DefaultStunnerdConfigfileName, sc)] ∧
      UnpackConfigMap env (stripCM env cm) = env.Unmarshal sc StunnerConfig.zero ∧
      (env.Unmarshal sc StunnerConfig.zero = (red, none) →
        ∃ out : StunnerConfig, UnpackConfigMap env (stripCM env cm) = (out, none) ∧
          isRedactionOf conf out) := by
  have henc : env.Marshal (redactConfig conf) = ((env.Marshal (redactConfig conf)).1, none) := by
    rw [← htotal (redactConfig conf)]
  have hstrip := stripCM_of_ok env cm conf _ hdec henc
  have hlook : (stripCM env cm).Data.lookup env.DefaultStunnerdConfigfileName =
      some (env.Marshal (redactConfig conf)).1 := by
    rw [hstrip]
    exact GoMap.lookup_singleton _ _
  have hun := UnpackConfigMap_of_lookup env _ _ hlook
  refine ⟨redactConfig conf, (env.Marshal (redactConfig conf)).1,
    redactConfig_isRedactionOf conf, henc, ?_, hun, ?_⟩
  · rw [hstrip]
  · intro hrt
    exact ⟨redactConfig conf, hun.trans hrt, redactConfig_isRedactionOf conf⟩

theorem stripCM_stores_redaction_witness :
    ∃ (red : StunnerConfig) (sc : String),
      isRedactionOf plainConf red ∧
      sampleEnv.Marshal red = (sc, none) ∧
      (stripCM sampleEnv plainCM).Data = some [(sampleEnv.DefaultStunnerdConfigfileName, sc)] ∧
      UnpackConfigMap sampleEnv (stripCM sampleEnv plainCM) =
        sampleEnv.Unmarshal sc StunnerConfig.zero ∧
      (sampleEnv.Unmarshal sc StunnerConfig.zero = (red, none) →
        ∃ out : StunnerConfig,
          UnpackConfigMap sampleEnv (stripCM sampleEnv plainCM) = (out, none) ∧
            isRedactionOf plainConf out) :=
  stripCM_stores_redaction sampleEnv plainCM plainConf (by decide) sampleEnv_Marshal_total

/-! ## Identity codec: the exact domain and round-trip condition -/

theorem cutFirst_eq_none_iff (sep : Char) (l : List Char) :
    cutFirst sep l = none ↔ sep ∉ l := by
  induction l with
  | nil => simp [cutFirst]
  | cons c cs ih =>
    by_cases hc : c = sep
    · simp [cutFirst, hc]
    · have hne : ¬ sep = c := fun e => hc e.symm
      cases hcut : cutFirst sep cs with
      | none => simpa [cutFirst, hc, hcut, hne] using ih.1 hcut
      | some p =>
        have hmem : sep ∈ cs := by
          by_contra hn
          rw [ih.2 hn] at hcut
          cases hcut
        simp [cutFirst, hc, hcut, hmem]

theorem cutFirst_eq_some (sep : Char) (l a b : List Char) (h : cutFirst sep l = some (a, b)) :
    sep ∉ a ∧ l = a ++ sep :: b := by
  induction l generalizing a with
  | nil => simp [cutFirst] at h
  | cons c cs ih =>
    by_cases hc : c = sep
    · simp only [cutFirst, hc, if_true, Option.some.injEq, Prod.mk.injEq] at h
      obtain ⟨ha, hb⟩ := h
      subst ha hb
      simp [hc]
    · cases hcut : cutFirst sep cs with
      | none => simp [cutFirst, hc, hcut] at h
      | some p =>
        obtain ⟨a0, b0⟩ := p
        simp only [cutFirst, hc, if_false, hcut, Option.some.injEq, Prod.mk.injEq] at h
        obtain ⟨ha, hb⟩ := h
        subst ha hb
        obtain ⟨h1, h2⟩ := ih a0 hcut
        have hne : ¬ sep = c := fun e => hc e.symm
        exact ⟨by simp [hne, h1], by simp [h2]⟩

theorem GetNameFromKey_of_cut (key : String) (a b : List Char)
    (h : cutFirst '/' key.data = some (a, b)) :
    GetNameFromKey key = .ok ⟨String.mk a, String.mk b⟩ := by
  simp [GetNameFromKey, stringsSplitN2, h, indexString, bind, Except.bind, pure, Except.pure]

theorem GetNameFromKey_of_not_mem (key : String) (h : '/' ∉ key.data) :
    stringsSplitN2 key '/' = [key] ∧ GetNameFromKey key = .error (indexOutOfRange 1 1) := by
  have hcut := (cutFirst_eq_none_iff '/' key.data).2 h
  have hs : stringsSplitN2 key '/' = [key] := by simp [stringsSplitN2, hcut]
  refine ⟨hs, ?_⟩
  simp [GetNameFromKey, hs, indexString, bind, Except.bind]

theorem GetNameFromKey_of_mem (key : String) (h : '/' ∈ key.data) :
    ∃ n : NamespacedName, GetNameFromKey key = .ok n ∧ '/' ∉ n.Namespace.data ∧
      n.Namespace ++ "/" ++ n.Name = key := by
  cases hcut : cutFirst '/' key.data with
  | none => exact absurd h ((cutFirst_eq_none_iff _ _).1 hcut)
  | some p =>
    obtain ⟨a, b⟩ := p
    obtain ⟨h1, h2⟩ := cutFirst_eq_some _ _ _ _ hcut
    refine ⟨⟨String.mk a, String.mk b⟩, GetNameFromKey_of_cut key a b hcut, h1, ?_⟩
    apply String.ext
    simp [h2]

theorem round_trip_namespace (n : NamespacedName) (h : GetNameFromKey n.String = .ok n) :
    '/' ∉ n.Namespace.data := by
  have hmem : '/' ∈ n.String.data := by simp [NamespacedName.String]
  obtain ⟨m, hm, hns, _⟩ := GetNameFromKey_of_mem _ hmem
  rw [h] at hm
  cases hm
  exact hns

/-- C11, as stated, fails: the identity with namespace "a" and name "b/c" round-trips through
the codec although its name contains "/". -/
theorem codec_inverse_only_counterexample :
    ¬ (GetNameFromKey (GetObjectKey slashNameObj) = .ok (GetNamespacedName slashNameObj) →
      '/' ∉ slashNameObj.GetNamespace.data ∧ '/' ∉ slashNameObj.GetName.data) := by
  intro h
  have hrt : GetNameFromKey (GetObjectKey slashNameObj) = .ok (GetNamespacedName slashNameObj) :=
    GetNameFromKey_String ⟨"a", "b/c"⟩ (by decide)
  exact absurd (h hrt).2 (by decide)

/-- C11, amended: if decoding the key of an object gives back its (namespace, name), then the
namespace contains no "/"; nothing follows for the name. -/
theorem codec_inverse_only (object : Object)
    (h : GetNameFromKey (GetObjectKey object) = .ok (GetNamespacedName object)) :
    '/' ∉ object.GetNamespace.data :=
  round_trip_namespace ⟨object.GetNamespace, object.GetName⟩ h

theorem codec_inverse_only_witness :
    GetNameFromKey (GetObjectKey slashNameObj) = .ok (GetNamespacedName slashNameObj) ∧
      '/' ∉ slashNameObj.GetNamespace.data :=
  ⟨GetNameFromKey_String ⟨"a", "b/c"⟩ (by decide),
    codec_inverse_only slashNameObj (GetNameFromKey_String ⟨"a", "b/c"⟩ (by decide))⟩

/-- C12: for a key containing "/", GetNameFromKey returns a namespace without "/" and a name such
that namespace, "/", name is the key; so the name keeps every further "/" and encoding the
decoded identity gives the key back. -/
theorem GetNameFromKey_first_separator (key : String) (h : '/' ∈ key.data) :
    ∃ n : NamespacedName, GetNameFromKey key = .ok n ∧ '/' ∉ n.Namespace.data ∧
      n.Namespace ++ "/" ++ n.Name = key ∧ NamespacedName.String n = key := by
  obtain ⟨n, h1, h2, h3⟩ := GetNameFromKey_of_mem key h
  exact ⟨n, h1, h2, h3, h3⟩

theorem GetNameFromKey_first_separator_witness :
    ∃ n : NamespacedName, GetNameFromKey "a/b/c" = .ok n ∧ '/' ∉ n.Namespace.data ∧
      n.Namespace ++ "/" ++ n.Name = "a/b/c" ∧ NamespacedName.String n = "a/b/c" :=
  GetNameFromKey_first_separator "a/b/c" (by decide)

/-- C18: decoding the key of an object gives back its (namespace, name) exactly when the
namespace contains no "/"; namespace "a" with name "b/c" round-trips, and so does an empty
namespace. -/
theorem codec_round_trip_iff (object : Object) :
    (GetNameFromKey (GetObjectKey object) = .ok (GetNamespacedName object) ↔
      '/' ∉ object.GetNamespace.data) ∧
    GetNameFromKey (GetObjectKey slashNameObj) = .ok ⟨"a", "b/c"⟩ ∧
    GetNameFromKey (GetObjectKey clusterObj) = .ok ⟨"", "b"⟩ :=
  ⟨⟨round_trip_namespace ⟨object.GetNamespace, object.GetName⟩,
      GetNameFromKey_String ⟨object.GetNamespace, object.GetName⟩⟩,
    GetNameFromKey_String ⟨"a", "b/c"⟩ (by decide),
    GetNameFromKey_String ⟨"", "b"⟩ (by decide)⟩

/-- C19: GetNameFromKey returns a value exactly for the keys that contain "/"; for a key without
"/", the empty key included, the split has the key as its single element and the read of the
second element panics with an index-out-of-range error. -/
theorem GetNameFromKey_domain (key : String) :
    ((∃ n : NamespacedName, GetNameFromKey key = .ok n) ↔ '/' ∈ key.data) ∧
    ('/' ∉ key.data →
      stringsSplitN2 key '/' = [key] ∧
        GetNameFromKey key = .error "runtime error: index out of range [1] with length 1") ∧
    GetNameFromKey "" = .error "runtime error: index out of range [1] with length 1" := by
  have hmsg : indexOutOfRange 1 1 = "runtime error: index out of range [1] with length 1" := by
    decide
  refine ⟨⟨?_, ?_⟩, ?_, ?_⟩
  · rintro ⟨n, hn⟩
    by_contra hmem
    rw [(GetNameFromKey_of_not_mem key hmem).2] at hn
    cases hn
  · intro hmem
    obtain ⟨n, hn, _⟩ := GetNameFromKey_of_mem key hmem
    exact ⟨n, hn⟩
  · intro hmem
    rw [← hmsg]
    exact GetNameFromKey_of_not_mem key hmem
  · rw [← hmsg]
    exact (GetNameFromKey_of_not_mem "" (by decide)).2

theorem GetNameFromKey_domain_witness :
    stringsSplitN2 "abc" '/' = ["abc"] ∧
      GetNameFromKey "abc" = .error "runtime error: index out of range [1] with length 1" :=
  (GetNameFromKey_domain "abc").2.1 (by decide)

/-! ## The StaticService candidate and the three-step rule -/

/-- C16, as stated, fails: a reference with absent group and absent kind passes the three-step
rule for the StaticService candidate, yet IsReferenceStaticService rejects it. -/
theorem three_step_StaticService_counterexample :
    threeStepRule ⟨none, none, none, "svc"⟩ GroupVersionGroup "StaticService" = true ∧
      IsReferenceStaticService ⟨none, none, none, "svc"⟩ = false ∧
      ¬ (IsReferenceStaticService ⟨none, none, none, "svc"⟩ =
        threeStepRule ⟨none, none, none, "svc"⟩ GroupVersionGroup "StaticService") := by
  decide

/-- C16, amended: IsReferenceStaticService rejects exactly when the group is absent or differs
from the StaticService group, or the kind is absent or differs from "StaticService"; whatever it
accepts the three-step rule accepts, the two agree when group and kind are both present, and a
reference with absent group and absent kind is rejected. -/
theorem IsReferenceStaticService_strict (ref : BackendRef) :
    (IsReferenceStaticService ref = false ↔
      (ref.Group = none ∨ ∃ g : String, ref.Group = some g ∧ g ≠ "stunner.l7mp.io") ∨
        (ref.Kind = none ∨ ∃ k : String, ref.Kind = some k ∧ k ≠ "StaticService")) ∧
    (IsReferenceStaticService ref = true →
      threeStepRule ref GroupVersionGroup "StaticService" = true) ∧
    (ref.Group.isSome = true → ref.Kind.isSome = true →
      IsReferenceStaticService ref = threeStepRule ref GroupVersionGroup "StaticService") ∧
    (ref.Group = none → ref.Kind = none → IsReferenceStaticService ref = false) := by
  obtain ⟨g, k, ns, n⟩ := ref
  cases g <;> cases k <;>
    simp [IsReferenceStaticService, threeStepRule, nilOrDiffers, setAndDiffers, GroupVersionGroup]
  exact imp_iff_not_or

theorem IsReferenceStaticService_strict_witness :
    IsReferenceStaticService ⟨some "stunner.l7mp.io", some "StaticService", none, "s1"⟩ =
        threeStepRule ⟨some "stunner.l7mp.io", some "StaticService", none, "s1"⟩
          GroupVersionGroup "StaticService" ∧
      IsReferenceStaticService ⟨none, none, none, "svc"⟩ = false :=
  ⟨(IsReferenceStaticService_strict
      ⟨some "stunner.l7mp.io", some "StaticService", none, "s1"⟩).2.2.1 rfl rfl,
    (IsReferenceStaticService_strict ⟨none, none, none, "svc"⟩).2.2.2 rfl rfl⟩

/-! ## Change detection as a relation -/

/-- C17, as stated, fails: there are no objects a, b, c with compareObjects(a, b) and
compareObjects(b, c) true and compareObjects(a, c) false. -/
theorem compareObjects_not_transitive_counterexample :
    ¬ ∃ a b c : Object, compareObjects a b = true ∧ compareObjects b c = true ∧
      compareObjects a c = false := by
  rintro ⟨a, b, c, hab, hbc, hac⟩
  obtain ⟨h1, h2, h3⟩ := (compareObjects_eq_true_iff a b).1 hab
  obtain ⟨h4, h5, h6⟩ := (compareObjects_eq_true_iff b c).1 hbc
  have : compareObjects a c = true :=
    (compareObjects_eq_true_iff a c).2 ⟨h1.trans h4, h2.trans h5, h3.trans h6⟩
  rw [this] at hac
  cases hac

/-- C17, amended: compareObjects is reflexive, symmetric and transitive: it is equality of the
(namespace, name, generation) triples of the two objects. -/
theorem compareObjects_equivalence (a b c : Object) :
    compareObjects a a = true ∧
    compareObjects a b = compareObjects b a ∧
    (compareObjects a b = true → compareObjects b c = true → compareObjects a c = true) := by
  refine ⟨(compareObjects_eq_true_iff a a).2 ⟨rfl, rfl, rfl⟩, ?_, ?_⟩
  · cases hab : compareObjects a b with
    | true =>
      obtain ⟨h1, h2, h3⟩ := (compareObjects_eq_true_iff a b).1 hab
      exact ((compareObjects_eq_true_iff b a).2 ⟨h1.symm, h2.symm, h3.symm⟩).symm
    | false =>
      cases hba : compareObjects b a with
      | false => rfl
      | true =>
        obtain ⟨h1, h2, h3⟩ := (compareObjects_eq_true_iff b a).1 hba
        rw [(compareObjects_eq_true_iff a b).2 ⟨h1.symm, h2.symm, h3.symm⟩] at hab
        cases hab
  · intro hab hbc
    obtain ⟨h1, h2, h3⟩ := (compareObjects_eq_true_iff a b).1 hab
    obtain ⟨h4, h5, h6⟩ := (compareObjects_eq_true_iff b c).1 hbc
    exact (compareObjects_eq_true_iff a c).2 ⟨h1.trans h4, h2.trans h5, h3.trans h6⟩

theorem compareObjects_equivalence_witness :
    compareObjects (Object.StaticService svcA)
      (Object.ConfigMap ⟨sampleMeta "x" "a" 1, none, ""⟩) = true :=
  (compareObjects_equivalence (Object.StaticService svcA)
    (Object.Generic GoType.Gateway ⟨sampleMeta "x" "a" 1, "spec"⟩)
    (Object.ConfigMap ⟨sampleMeta "x" "a" 1, none, ""⟩)).2.2 (by decide) (by decide)

/-! ## Metadata merge -/

theorem any_key_iff_find (kvs : List (String × String)) (k : String) :
    kvs.any (fun kv => kv.1 == k) = (kvs.find? (fun kv => kv.1 == k)).isSome := by
  induction kvs with
  | nil => rfl
  | cons kv rest ih =>
    by_cases h : kv.1 = k
    · simp [List.find?_cons, h]
    · have hq : (kv.1 == k) = false := by simp [h]
      simp only [List.any_cons, List.find?_cons, hq, Bool.false_or]
      exact ih

theorem any_key_iff_mem (kvs : List (String × String)) (k : String) :
    kvs.any (fun kv => kv.1 == k) = true ↔ k ∈ kvs.map Prod.fst := by
  simp only [List.any_eq_true, List.mem_map, beq_iff_eq]

theorem setEntry_lookup (kvs : List (String × String)) (k v j : String) :
    GoMap.lookup (some (setEntry kvs k v)) j =
      if j = k then some v else GoMap.lookup (some kvs) j := by
  unfold setEntry
  by_cases hany : kvs.any (fun kv => kv.1 == k) = true
  · rw [if_pos hany]
    show Option.map Prod.snd ((kvs.map _).find? _) = _
    rw [find_replace]
    by_cases hj : j = k
    · subst hj
      rw [any_key_iff_find] at hany
      obtain ⟨x, hx⟩ := Option.isSome_iff_exists.1 hany
      simp [hx]
    · simp [hj, GoMap.lookup, GoMap.entries]
  · rw [if_neg hany]
    show Option.map Prod.snd ((kvs ++ [(k, v)]).find? _) = _
    rw [List.find?_append]
    by_cases hj : j = k
    · subst hj
      rw [any_key_iff_find] at hany
      have hnone : kvs.find? (fun kv => kv.1 == j) = none := by
        cases hf : kvs.find? (fun kv => kv.1 == j) with
        | none => rfl
        | some x => simp [hf] at hany
      simp [hnone]
    · have hk : ¬ k = j := fun e => hj e.symm
      simp [hj, hk, GoMap.lookup, GoMap.entries, List.find?_cons]

theorem setEntry_keys (kvs : List (String × String)) (k v : String)
    (h : (kvs.map Prod.fst).Nodup) : ((setEntry kvs k v).map Prod.fst).Nodup := by
  unfold setEntry
  by_cases hany : kvs.any (fun kv => kv.1 == k) = true
  · rw [if_pos hany]
    have hkeys : (kvs.map (fun kv => if kv.1 == k then (kv.1, v) else kv)).map Prod.fst =
        kvs.map Prod.fst := by
      rw [List.map_map]
      apply List.map_congr_left
      intro kv _
      show (if (kv.1 == k) = true then (kv.1, v) else kv).1 = kv.1
      split <;> rfl
    rw [hkeys]
    exact h
  · rw [if_neg hany]
    have hmem : k ∉ kvs.map Prod.fst := fun hm => hany ((any_key_iff_mem kvs k).2 hm)
    rw [List.map_append, List.nodup_append]
    refine ⟨h, by simp, ?_⟩
    intro x hx hx2
    simp only [List.map_cons, List.map_nil, List.mem_singleton] at hx2
    subst hx2
    exact hmem hx

theorem foldl_setEntry_lookup (l ret : List (String × String)) (j : String)
    (h : (l.map Prod.fst).Nodup) :
    GoMap.lookup (some (l.foldl (fun r kv => setEntry r kv.1 kv.2) ret)) j =
      match GoMap.lookup (some l) j with
      | some v => some v
      | none => GoMap.lookup (some ret) j := by
  induction l generalizing ret with
  | nil => simp [GoMap.lookup, GoMap.entries]
  | cons kv rest ih =>
    rw [List.map_cons, List.nodup_cons] at h
    rw [List.foldl_cons, ih _ h.2, setEntry_lookup]
    by_cases hj : kv.1 = j
    · subst hj
      have hnone : rest.find? (fun e => e.1 == kv.1) = none := by
        cases hf : rest.find? (fun e => e.1 == kv.1) with
        | none => rfl
        | some x =>
          have hx := List.find?_some hf
          have hm := List.mem_of_find?_eq_some hf
          simp only [beq_iff_eq] at hx
          exact absurd (List.mem_map.2 ⟨x, hm, hx⟩) h.1
      simp [GoMap.lookup, GoMap.entries, hnone, List.find?_cons]
    · have hj2 : ¬ j = kv.1 := fun e => hj e.symm
      have hq : (kv.1 == j) = false := by simp [hj]
      simp only [GoMap.lookup, GoMap.entries, List.find?_cons, hq, if_neg hj2]

theorem foldl_setEntry_keys (l ret : List (String × String))
    (h : (ret.map Prod.fst).Nodup) :
    ((l.foldl (fun r kv => setEntry r kv.1 kv.2) ret).map Prod.fst).Nodup := by
  induction l generalizing ret with
  | nil => exact h
  | cons kv rest ih => exact ih _ (setEntry_keys ret kv.1 kv.2 h)

theorem MergeMetadata_lookup (a b : GoMap) (ha : a.WF) (hb : b.WF) (j : String) :
    (MergeMetadata a b).lookup j =
      match b.lookup j with
      | some v => some v
      | none => a.lookup j := by
  have h1 : ∀ m : GoMap, GoMap.lookup (some m.entries) j = m.lookup j := fun m => rfl
  show GoMap.lookup (some (copyInto (copyInto [] a) b)) j = _
  unfold copyInto
  rw [foldl_setEntry_lookup _ _ _ hb, foldl_setEntry_lookup _ _ _ ha, h1, h1]
  cases b.lookup j with
  | some v => rfl
  | none =>
    cases a.lookup j with
    | some w => rfl
    | none => simp [GoMap.lookup, GoMap.entries]

/-- C13: for maps with distinct keys (nil and empty included), MergeMetadata(a, b) maps each key
to its value in b when b has it, otherwise to its value in a when a has it, and has no entry
otherwise; its keys are those of a or b; and the result is a non-nil map, built from an empty
one, whose keys are distinct. -/
theorem MergeMetadata_contract (a b : GoMap) (ha : a.WF) (hb : b.WF) :
    (∀ k v : String, b.lookup k = some v → (MergeMetadata a b).lookup k = some v) ∧
    (∀ k : String, b.lookup k = none → (MergeMetadata a b).lookup k = a.lookup k) ∧
    (∀ k : String, ((MergeMetadata a b).lookup k).isSome =
      ((a.lookup k).isSome || (b.lookup k).isSome)) ∧
    (MergeMetadata a b).isSome = true ∧
    (MergeMetadata a b).WF := by
  refine ⟨?_, ?_, ?_, rfl, ?_⟩
  · intro k v h
    rw [MergeMetadata_lookup a b ha hb, h]
  · intro k h
    rw [MergeMetadata_lookup a b ha hb, h]
  · intro k
    rw [MergeMetadata_lookup a b ha hb]
    cases b.lookup k <;> cases a.lookup k <;> rfl
  · show ((copyInto (copyInto [] a) b).map Prod.fst).Nodup
    unfold copyInto
    exact foldl_setEntry_keys _ _ (foldl_setEntry_keys _ _ List.nodup_nil)

theorem MergeMetadata_contract_witness :
    (MergeMetadata labelsA labelsB).lookup "app" = some "gateway" ∧
      (MergeMetadata labelsA labelsB).lookup "tier" = labelsA.lookup "tier" ∧
      (MergeMetadata none none).isSome = true :=
  ⟨(MergeMetadata_contract labelsA labelsB (by decide) (by decide)).1 "app" "gateway"
      (by decide),
    (MergeMetadata_contract labelsA labelsB (by decide) (by decide)).2.1 "tier" (by decide),
    (MergeMetadata_contract none none (by decide) (by decide)).2.2.2.1⟩

/-! ## Dumping -/

theorem dumpJSON_of_error (d : DumpEnv) (output : String) (x : Object)
    (h : (d.MarshalObject x).2 ≠ none) :
    (dumpJSON d output x).1 = output := by
  unfold dumpJSON
  rcases hm : d.MarshalObject x with ⟨json, _ | err⟩
  · rw [hm] at h
    exact absurd rfl h
  · rfl

theorem DumpObject_of_rule (d : DumpEnv) (o : Object) (h : o.hasDumpRule = true) :
    DumpObject d o = dumpJSON d (d.GoSyntax o) (dumpedCopy d o) := by
  cases o with
  | StaticService r => rfl
  | ConfigMap cm => rfl
  | Generic t g =>
    cases t with
    | Other n => simp [Object.hasDumpRule] at h
    | _ => rfl

/-- C14: DumpObject always returns; for an object of a kind with a dump rule whose stripped
(and, for a ConfigMap, redacted) copy fails to serialize, the returned string is the default dump
of the object as passed in; and for an object of a kind without a rule it is that same default
dump, with nothing printed. -/
theorem DumpObject_non_fatal (d : DumpEnv) (o : Object) :
    (o.hasDumpRule = true → (d.MarshalObject (dumpedCopy d o)).2 ≠ none →
      (DumpObject d o).1 = d.GoSyntax o) ∧
    (o.hasDumpRule = false → DumpObject d o = (d.GoSyntax o, [])) ∧
    (∀ cm : ConfigMap, dumpedCopy d (Object.ConfigMap cm) =
      strip (Object.ConfigMap (stripCM d.env cm))) ∧
    ((∀ cm : ConfigMap, o ≠ Object.ConfigMap cm) → dumpedCopy d o = strip o) := by
  refine ⟨?_, ?_, fun cm => rfl, ?_⟩
  · intro h herr
    rw [DumpObject_of_rule d o h]
    exact dumpJSON_of_error d _ _ herr
  · intro h
    cases o with
    | StaticService r => simp [Object.hasDumpRule] at h
    | ConfigMap cm => simp [Object.hasDumpRule] at h
    | Generic t g =>
      cases t with
      | Other n => rfl
      | _ => simp [Object.hasDumpRule] at h
  · intro h
    cases o with
    | StaticService r => rfl
    | ConfigMap cm => exact absurd rfl (h cm)
    | Generic t g => rfl

theorem DumpObject_non_fatal_witness :
    (DumpObject sampleDumpEnv deploymentD).1 = "&Object(x/d)" ∧
      DumpObject sampleDumpEnv secretS = ("&Object(x/s)", []) :=
  ⟨(DumpObject_non_fatal sampleDumpEnv deploymentD).1 (by decide) (by decide),
    (DumpObject_non_fatal sampleDumpEnv secretS).2.1 (by decide)⟩

/-! ## The store seen through the typed view -/

theorem StoreMemory.load_lt (m : StoreMemory) (p : Nat) (o : Object) (h : m.load p = some o) :
    p < m.heap.length := by
  unfold StoreMemory.load at h
  exact (List.getElem?_eq_some.1 h).1

theorem StoreMemory.Upsert_eq (m : StoreMemory) (k : NamespacedName) (p : Nat) (o : Object)
    (h : m.load p = some o) :
    m.Upsert k p =
      { heap := m.heap ++ [o]
        entries := (k, m.heap.length) :: m.entries.filter (fun e => !(e.1 == k)) } := by
  unfold StoreMemory.Upsert
  rw [h]

theorem StoreMemory.Get_Upsert (m : StoreMemory) (k : NamespacedName) (p : Nat) (o : Object)
    (h : m.load p = some o) : (m.Upsert k p).Get k = some o := by
  rw [StoreMemory.Upsert_eq m k p o h]
  simp [StoreMemory.Get, StoreMemory.load, List.find?_cons]

theorem StoreMemory.load_Upsert (m : StoreMemory) (k : NamespacedName) (p : Nat) (o : Object)
    (h : m.load p = some o) : (m.Upsert k p).load p = some o := by
  have hlt := StoreMemory.load_lt m p o h
  rw [StoreMemory.Upsert_eq m k p o h]
  unfold StoreMemory.load at h ⊢
  show (m.heap ++ [o])[p]? = some o
  rw [List.getElem?_append_left hlt]
  exact h

theorem StoreMemory.mutate_eq (m : StoreMemory) (p : Nat) (v : StaticService)
    (f : StaticService → StaticService) (h : m.load p = some (Object.StaticService v)) :
    m.mutate p f = { m with heap := m.heap.set p (Object.StaticService (f v)) } := by
  unfold StoreMemory.mutate
  rw [h]

theorem StoreMemory.Get_mutate_Upsert (m : StoreMemory) (k : NamespacedName) (p : Nat)
    (v : StaticService) (f : StaticService → StaticService)
    (h : m.load p = some (Object.StaticService v)) :
    ((m.Upsert k p).mutate p f).load p = some (Object.StaticService (f v)) ∧
      ((m.Upsert k p).mutate p f).Get k = some (Object.StaticService v) := by
  have hlt := StoreMemory.load_lt m p _ h
  rw [StoreMemory.mutate_eq _ p v f (StoreMemory.load_Upsert m k p _ h),
    StoreMemory.Upsert_eq m k p _ h]
  have hne : p ≠ m.heap.length := Nat.ne_of_lt hlt
  constructor
  · simp only [StoreMemory.load]
    rw [List.getElem?_set_self (by simp; omega)]
  · simp only [StoreMemory.Get, StoreMemory.load, List.find?_cons, beq_self_eq_true]
    rw [List.getElem?_set_ne hne]
    simp

/-- C15: in the store as the specification describes it, after Upsert stores under k the
StaticService v behind the pointer of the caller, Get(k) returns v and GetObject(k) of the typed
view returns v; and after the caller then mutates its object through that pointer, so that it
reads f(v), Get(k) and GetObject(k) still return v. -/
theorem store_write_read (m : StoreMemory) (k : NamespacedName) (p : Nat) (v : StaticService)
    (h : m.load p = some (Object.StaticService v)) :
    (m.Upsert k p).Get k = some (Object.StaticService v) ∧
    (m.Upsert k p).typed.GetObject k = .ok (some v) ∧
    ∀ f : StaticService → StaticService,
      ((m.Upsert k p).mutate p f).load p = some (Object.StaticService (f v)) ∧
      ((m.Upsert k p).mutate p f).Get k = some (Object.StaticService v) ∧
      ((m.Upsert k p).mutate p f).typed.GetObject k = .ok (some v) := by
  have hget := StoreMemory.Get_Upsert m k p _ h
  refine ⟨hget, ?_, ?_⟩
  · simp [StaticServiceStore.GetObject, StoreMemory.typed, hget]
  · intro f
    obtain ⟨h1, h2⟩ := StoreMemory.Get_mutate_Upsert m k p v f h
    refine ⟨h1, h2, ?_⟩
    simp [StaticServiceStore.GetObject, StoreMemory.typed, h2]

theorem store_write_read_witness :
    (((callerMemory.Upsert ⟨"x", "a"⟩ 0).mutate 0 respec).load 0 =
        some (Object.StaticService (respec svcA))) ∧
      ((callerMemory.Upsert ⟨"x", "a"⟩ 0).mutate 0 respec).Get ⟨"x", "a"⟩ =
        some (Object.StaticService svcA) ∧
      ((callerMemory.Upsert ⟨"x", "a"⟩ 0).mutate 0 respec).typed.GetObject ⟨"x", "a"⟩ =
        .ok (some svcA) :=
  (store_write_read callerMemory ⟨"x", "a"⟩ 0 svcA (by decide)).2.2 respec

/-- With a store that keeps the pointer of the caller, the mutation shows through `Get`: reading
back the stored value relies on the copy made by `Upsert`. -/
theorem StoreMemory.Get_mutate_UpsertShared :
    ((callerMemory.UpsertShared ⟨"x", "a"⟩ 0).mutate 0 respec).Get ⟨"x", "a"⟩ =
        some (Object.StaticService (respec svcA)) ∧
      respec svcA ≠ svcA := by
  decide

/-! ## Redaction does not depend on the secrets -/

theorem map_eq_of_forall₂ {α β : Type} (R : α → α → Prop) (f : α → β)
    (hf : ∀ x y, R x y → f x = f y) (l1 l2 : List α) (h : List.Forall₂ R l1 l2) :
    l1.map f = l2.map f := by
  induction h with
  | nil => rfl
  | cons hxy _ ih => rw [List.map_cons, List.map_cons, hf _ _ hxy, ih]

theorem redactCredential_eq_replace (m : GoMap) (k : String) :
    redactCredential m k = m.replace k secretSentinel := by
  unfold redactCredential
  by_cases hp : (m.lookup k).isSome = true
  · rw [if_pos hp]
  · rw [if_neg hp]
    cases m with
    | none => rfl
    | some kvs =>
      have hnone : kvs.find? (fun kv => kv.1 == k) = none := by
        cases hf : kvs.find? (fun kv => kv.1 == k) with
        | none => rfl
        | some x => simp [GoMap.lookup, GoMap.entries, hf] at hp
      show some kvs = some (kvs.map _)
      congr 1
      have hid : kvs.map (fun kv => if kv.1 == k then (kv.1, secretSentinel) else kv) =
          kvs.map id := by
        apply List.map_congr_left
        intro kv hkv
        have hne := List.find?_eq_none.1 hnone kv hkv
        simp only [beq_iff_eq] at hne
        simp [hne]
      rw [hid, List.map_id]

/-- What the three credential overwrites do to one entry. -/
theorem redactEntry_eq (e1 e2 : String × String) (h : sameEntryUpToSecret e1 e2) (v : String) :
    (fun kv : String × String => if kv.1 == "secret" then (kv.1, v) else kv)
      ((fun kv : String × String => if kv.1 == "password" then (kv.1, v) else kv)
        ((fun kv : String × String => if kv.1 == "username" then (kv.1, v) else kv) e1)) =
    (fun kv : String × String => if kv.1 == "secret" then (kv.1, v) else kv)
      ((fun kv : String × String => if kv.1 == "password" then (kv.1, v) else kv)
        ((fun kv : String × String => if kv.1 == "username" then (kv.1, v) else kv) e2)) := by
  obtain ⟨k1, v1⟩ := e1
  obtain ⟨k2, v2⟩ := e2
  obtain ⟨hk, hv⟩ := h
  simp only at hk hv
  subst hk
  by_cases h1 : k1 = "username"
  · subst h1; simp
  · by_cases h2 : k1 = "password"
    · subst h2; simp
    · by_cases h3 : k1 = "secret"
      · subst h3; simp
      · have : v1 = v2 := hv (by simp [isCredentialKey, h1, h2, h3])
        subst this
        rfl

theorem redactListener_eq (l1 l2 : ListenerConfig) (h : sameListenerUpToSecrets l1 l2) :
    redactListener l1 = redactListener l2 := by
  obtain ⟨c1, k1, r1⟩ := l1
  obtain ⟨c2, k2, r2⟩ := l2
  obtain ⟨hr, hc, hk⟩ := h
  simp only at hr hc hk
  subst hr
  have hcert : (if c1 ≠ "" then secretSentinel else c1) =
      (if c2 ≠ "" then secretSentinel else c2) := by
    rcases hc with rfl | ⟨a, b⟩
    · rfl
    · rw [if_pos a, if_pos b]
  have hkey : (if k1 ≠ "" then secretSentinel else k1) =
      (if k2 ≠ "" then secretSentinel else k2) := by
    rcases hk with rfl | ⟨a, b⟩
    · rfl
    · rw [if_pos a, if_pos b]
  have hform : ∀ c k : String, redactListener ⟨c, k, r1⟩ =
      ⟨if c ≠ "" then secretSentinel else c, if k ≠ "" then secretSentinel else k, r1⟩ := by
    intro c k
    by_cases hc0 : c = "" <;> by_cases hk0 : k = "" <;> simp [redactListener, hc0, hk0]
  rw [hform, hform, hcert, hkey]

theorem redactConfig_eq_of_same (c1 c2 : StunnerConfig) (h : sameConfigUpToSecrets c1 c2) :
    redactConfig c1 = redactConfig c2 := by
  obtain ⟨⟨cr1, ar1⟩, ls1, r1⟩ := c1
  obtain ⟨⟨cr2, ar2⟩, ls2, r2⟩ := c2
  obtain ⟨hr, har, hcr, hls⟩ := h
  simp only at hr har hcr hls
  subst hr har
  have hcreds : ((cr1.replace "username" secretSentinel).replace "password"
      secretSentinel).replace "secret" secretSentinel =
      ((cr2.replace "username" secretSentinel).replace "password"
        secretSentinel).replace "secret" secretSentinel := by
    cases cr1 with
    | none =>
      cases cr2 with
      | none => rfl
      | some l2 => exact absurd hcr (by simp [sameCredentialsUpToSecrets])
    | some l1 =>
      cases cr2 with
      | none => exact absurd hcr (by simp [sameCredentialsUpToSecrets])
      | some l2 =>
        simp only [GoMap.replace, Option.map_some', List.map_map, Option.some.injEq]
        exact map_eq_of_forall₂ sameEntryUpToSecret _
          (fun x y hxy => redactEntry_eq x y hxy secretSentinel) l1 l2 hcr
  have hlist : ls1.map (fun ls => ls.map redactListener) =
      ls2.map (fun ls => ls.map redactListener) := by
    cases ls1 with
    | none =>
      cases ls2 with
      | none => rfl
      | some l2 => exact absurd hls (by simp [sameListenersUpToSecrets])
    | some l1 =>
      cases ls2 with
      | none => exact absurd hls (by simp [sameListenersUpToSecrets])
      | some l2 =>
        simp only [Option.map_some', Option.some.injEq]
        exact map_eq_of_forall₂ sameListenerUpToSecrets _ redactListener_eq l1 l2 hls
  simp only [redactConfig, redactCredential_eq_replace, hcreds, hlist]

theorem dumpJSON_of_ok (d : DumpEnv) (output : String) (x : Object)
    (h : (d.MarshalObject x).2 = none) :
    dumpJSON d output x = ((d.MarshalObject x).1, []) := by
  unfold dumpJSON
  rcases hm : d.MarshalObject x with ⟨json, _ | err⟩
  · rfl
  · rw [hm] at h
    cases h

/-- C20: for two ConfigMaps with the same metadata whose documents decode to configurations
that differ only in the values under the credential keys username, password and secret (same
keys in both) and in listener Cert and Key values that are non-empty in both, and with
json.Marshal not failing on a configuration, stripCM gives identical results; and when the
redacted object serializes, DumpObject gives identical output for the two. -/
theorem stripCM_noninterference (d : DumpEnv) (cm1 cm2 : ConfigMap) (c1 c2 : StunnerConfig)
    (hmeta : cm1.meta = cm2.meta) (hbin : cm1.BinaryData = cm2.BinaryData)
    (h1 : UnpackConfigMap d.env cm1 = (c1, none))
    (h2 : UnpackConfigMap d.env cm2 = (c2, none))
    (hsame : sameConfigUpToSecrets c1 c2)
    (htotal : ∀ c : StunnerConfig, (d.env.Marshal c).2 = none) :
    stripCM d.env cm1 = stripCM d.env cm2 ∧
    ((d.MarshalObject (strip (Object.ConfigMap (stripCM d.env cm1)))).2 = none →
      DumpObject d (Object.ConfigMap cm1) = DumpObject d (Object.ConfigMap cm2)) := by
  have hred := redactConfig_eq_of_same c1 c2 hsame
  have henc1 : d.env.Marshal (redactConfig c1) = ((d.env.Marshal (redactConfig c1)).1, none) := by
    rw [← htotal (redactConfig c1)]
  have henc2 : d.env.Marshal (redactConfig c2) = ((d.env.Marshal (redactConfig c1)).1, none) := by
    rw [← hred]
    exact henc1
  have hs1 := stripCM_of_ok d.env cm1 c1 _ h1 henc1
  have hs2 := stripCM_of_ok d.env cm2 c2 _ h2 henc2
  have heq : stripCM d.env cm1 = stripCM d.env cm2 := by
    rw [hs1, hs2]
    obtain ⟨m1, d1, b1⟩ := cm1
    obtain ⟨m2, d2, b2⟩ := cm2
    simp only at hmeta hbin
    subst hmeta hbin
    rfl
  refine ⟨heq, ?_⟩
  intro hok
  have hok2 : (d.MarshalObject (strip (Object.ConfigMap (stripCM d.env cm2)))).2 = none := by
    rw [← heq]
    exact hok
  show dumpJSON d _ (strip (Object.ConfigMap (stripCM d.env cm1))) =
    dumpJSON d _ (strip (Object.ConfigMap (stripCM d.env cm2)))
  rw [dumpJSON_of_ok d _ _ hok, dumpJSON_of_ok d _ _ hok2, heq]

theorem stripCM_noninterference_witness :
    plainCM ≠ otherCM ∧
      stripCM pairEnv.env plainCM = stripCM pairEnv.env otherCM ∧
      DumpObject pairEnv (Object.ConfigMap plainCM) =
        DumpObject pairEnv (Object.ConfigMap otherCM) :=
  ⟨by decide,
    (stripCM_noninterference pairEnv plainCM otherCM plainConf otherConf rfl rfl
      (by decide) (by decide)
      ⟨rfl, rfl,
        List.Forall₂.cons ⟨rfl, by decide⟩ (List.Forall₂.cons ⟨rfl, by decide⟩ List.Forall₂.nil),
        List.Forall₂.cons ⟨rfl, Or.inr ⟨by decide, by decide⟩, Or.inl rfl⟩ List.Forall₂.nil⟩
      (fun c => by simp only [pairEnv]; split_ifs <;> rfl)).1,
    (stripCM_noninterference pairEnv plainCM otherCM plainConf otherConf rfl rfl
      (by decide) (by decide)
      ⟨rfl, rfl,
        List.Forall₂.cons ⟨rfl, by decide⟩ (List.Forall₂.cons ⟨rfl, by decide⟩ List.Forall₂.nil),
        List.Forall₂.cons ⟨rfl, Or.inr ⟨by decide, by decide⟩, Or.inl rfl⟩ List.Forall₂.nil⟩
      (fun c => by simp only [pairEnv]; split_ifs <;> rfl)).2 (by decide)⟩

/-! ## What stripCM leaves alone and what it stores -/

theorem stripCM_of_error (env : Env) (cm : ConfigMap) (h : (UnpackConfigMap env cm).2 ≠ none) :
    stripCM env cm = cm := by
  unfold stripCM
  rcases hu : UnpackConfigMap env cm with ⟨conf, _ | err⟩
  · rw [hu] at h
    exact absurd rfl h
  · rfl

/-- C21: when UnpackConfigMap reports an error, because the document key is missing or because
the value under it does not decode, stripCM returns the ConfigMap unchanged; when the document
decodes, and json.Marshal does not fail, the resulting Data is a non-nil map with exactly one
entry, under the document key, so every other key reads as absent, and metadata and binary data
are kept. -/
theorem stripCM_decode_paths (env : Env) (cm : ConfigMap) :
    ((UnpackConfigMap env cm).2 ≠ none → stripCM env cm = cm) ∧
    (cm.Data.lookup env.DefaultStunnerdConfigfileName = none → stripCM env cm = cm) ∧
    (∀ doc : String, cm.Data.lookup env.DefaultStunnerdConfigfileName = some doc →
      (env.Unmarshal doc StunnerConfig.zero).2 ≠ none → stripCM env cm = cm) ∧
    ((∀ c : StunnerConfig, (env.Marshal c).2 = none) → (UnpackConfigMap env cm).2 = none →
      ∃ sc : String,
        (stripCM env cm).Data = some [(env.DefaultStunnerdConfigfileName, sc)] ∧
        (stripCM env cm).Data.entries.length = 1 ∧
        (stripCM env cm).Data.lookup env.DefaultStunnerdConfigfileName = some sc ∧
        (∀ k : String, k ≠ env.DefaultStunnerdConfigfileName →
          (stripCM env cm).Data.lookup k = none) ∧
        (stripCM env cm).meta = cm.meta ∧
        (stripCM env cm).BinaryData = cm.BinaryData) := by
  refine ⟨stripCM_of_error env cm, ?_, ?_, ?_⟩
  · intro h
    apply stripCM_of_error
    unfold UnpackConfigMap
    simp [h]
  · intro doc h herr
    apply stripCM_of_error
    rw [UnpackConfigMap_of_lookup env cm doc h]
    exact herr
  · intro htotal hok
    have hdec : UnpackConfigMap env cm = ((UnpackConfigMap env cm).1, none) := by
      rw [← hok]
    have henc : env.Marshal (redactConfig (UnpackConfigMap env cm).1) =
        ((env.Marshal (redactConfig (UnpackConfigMap env cm).1)).1, none) := by
      rw [← htotal (redactConfig (UnpackConfigMap env cm).1)]
    have hs := stripCM_of_ok env cm _ _ hdec henc
    refine ⟨(env.Marshal (redactConfig (UnpackConfigMap env cm).1)).1, ?_, ?_, ?_, ?_, ?_, ?_⟩
    · rw [hs]
    · rw [hs]
      rfl
    · rw [hs]
      exact GoMap.lookup_singleton _ _
    · intro k hk
      rw [hs]
      have hne : ¬ env.DefaultStunnerdConfigfileName = k := fun e => hk e.symm
      simp [GoMap.lookup, GoMap.entries, List.find?_cons, hne]
    · rw [hs]
    · rw [hs]

theorem stripCM_decode_paths_witness :
    stripCM sampleEnv keylessCM = keylessCM ∧
      stripCM sampleEnv brokenCM = brokenCM ∧
      ∃ sc : String,
        (stripCM sampleEnv plainCM).Data = some [(sampleEnv.DefaultStunnerdConfigfileName, sc)] ∧
        (stripCM sampleEnv plainCM).Data.entries.length = 1 ∧
        (stripCM sampleEnv plainCM).Data.lookup sampleEnv.DefaultStunnerdConfigfileName =
          some sc ∧
        (∀ k : String, k ≠ sampleEnv.DefaultStunnerdConfigfileName →
          (stripCM sampleEnv plainCM).Data.lookup k = none) ∧
        (stripCM sampleEnv plainCM).meta = plainCM.meta ∧
        (stripCM sampleEnv plainCM).BinaryData = plainCM.BinaryData :=
  ⟨(stripCM_decode_paths sampleEnv keylessCM).2.1 (by decide),
    (stripCM_decode_paths sampleEnv brokenCM).2.2.1 "not json" (by decide) (by decide),
    (stripCM_decode_paths sampleEnv plainCM).2.2.2 sampleEnv_Marshal_total (by decide)⟩

/-! ## Owner references -/

/-- C22: IsOwner is true exactly when one owner reference of the owned object carries the
owner's name, the owner's UID and the given kind together; it is false for an object without
owner references; and the namespaces of owner and owned object are never compared. -/
theorem IsOwner_iff (owner owned : ObjectMeta) (kind : String) :
    (IsOwner owner owned kind = true ↔
      ∃ ownerRef ∈ owned.OwnerReferences,
        ownerRef.Name = owner.Name ∧ ownerRef.UID = owner.UID ∧ ownerRef.Kind = kind) ∧
    (owned.OwnerReferences = [] → IsOwner owner owned kind = false) ∧
    (∀ ns : String, IsOwner { owner with Namespace := ns } owned kind =
      IsOwner owner owned kind) ∧
    (∀ ns : String, IsOwner owner { owned with Namespace := ns } kind =
      IsOwner owner owned kind) := by
  refine ⟨?_, ?_, fun ns => rfl, fun ns => rfl⟩
  · simp [IsOwner, List.any_eq_true, and_assoc]
  · intro h
    simp [IsOwner, h]

theorem IsOwner_iff_witness :
    IsOwner ownerMeta (sampleMeta "x" "stunnerd" 1) "Gateway" = false ∧
      IsOwner ownerMeta ownedMeta "Gateway" = true ∧
      IsOwner ownerMeta splitOwnedMeta "Gateway" = false :=
  ⟨(IsOwner_iff ownerMeta (sampleMeta "x" "stunnerd" 1) "Gateway").2.1 rfl,
    (IsOwner_iff ownerMeta ownedMeta "Gateway").1.2
      ⟨⟨"Gateway", "gw", "uid-1"⟩, by decide, rfl, rfl, rfl⟩,
    Bool.eq_false_iff.2 (fun h =>
      absurd ((IsOwner_iff ownerMeta splitOwnedMeta "Gateway").1.1 h) (by decide))⟩

end StunnerGateway
